import Mathlib

/-!
Shallow embedding of `src/pyannote/generators/fragment.py` from
pyannote/pyannote-generators.

Conventions of the embedding:
* Python floats are modelled as rationals (`ℚ`), exact arithmetic.
* `pyannote.core` container types are external collaborators; their narrow
  contract is taken from the spec (data model section): a `Segment` is a pair
  of endpoints, a `Timeline` a list of segments, and a labeled collection
  (`pyannote.core` class of `itertracks` fame) is modelled as `Annot`, a list
  of `(segment, track, label)` entries in iteration order.  Concrete inputs
  used in witnesses are given with entries already in the sorted order the
  external library would produce.
* Randomness: Python draws from a single process-wide stream.  We model the
  stream as a function `rng : ℕ → ℚ` of draw positions; each call of
  `random.random()` reads one position, `random.randrange(n)` /
  `np.random.choice` read one position and map it into `Fin n` by
  `⌊r * n⌋ % n` (for `0 ≤ r < 1` this is the usual inverse transform).  The
  weighted `np.random.choice(n, p)` is modelled by the inverse CDF of the
  categorical distribution, evaluated at `r * total`.
* Generators are lazy in Python; we model a generator as the finite list of
  elements it emits (for the finite ones), or the list of its first `n`
  pulls, together with the next unread stream position, plus an
  `Option PyErr` recording whether the run ended in a raised exception
  (elements emitted before the exception are kept, as a consumer would see
  them).
-/

/-- Python exception kinds raised by the code paths embedded here. -/
inductive PyErr
  | typeError
  | valueError
  | nameError
  | indexError
  | keyError
deriving DecidableEq

/-- `pyannote.core.Segment`, modelled from the spec: an interval
`(start, stop)` with `duration = stop - start`. -/
structure Segment where
  start : ℚ
  stop : ℚ
deriving DecidableEq

instance : Inhabited Segment := ⟨⟨0, 0⟩⟩

/-- Segment duration, modelled from the spec: `end - start`. -/
def Segment.duration (s : Segment) : ℚ := s.stop - s.start

/-- `inner in outer` of `pyannote.core`: full containment. -/
def Segment.isIn (inner outer : Segment) : Bool :=
  decide (outer.start ≤ inner.start) && decide (inner.stop ≤ outer.stop)

/-- `a & b` of `pyannote.core`: intersection (possibly degenerate). -/
def Segment.inter (a b : Segment) : Segment :=
  ⟨max a.start b.start, min a.stop b.stop⟩

abbrev Track := ℕ
abbrev Label := ℕ
abbrev Timeline := List Segment

/-- A labeled interval collection: `(segment, track, label)` entries in
`itertracks` order.  Named `Annot` (the `pyannote.core` labeled container). -/
abbrev Annot := List (Segment × Track × Label)

/-- `get_timeline()`: the segments of the collection, one occurrence each,
in collection order. -/
def Annot.getTimeline (a : Annot) : Timeline := (a.map (·.1)).dedup

/-- `labels()`: the distinct labels, one occurrence each, in collection
order. -/
def Annot.labels (a : Annot) : List Label := (a.map (·.2.2)).dedup

/-- `subset([l])`: entries carrying label `l`. -/
def Annot.subsetIn (a : Annot) (l : Label) : Annot :=
  a.filter (fun e => decide (e.2.2 = l))

/-- `subset([l], invert=True)`: entries not carrying label `l`. -/
def Annot.subsetOut (a : Annot) (l : Label) : Annot :=
  a.filter (fun e => decide (e.2.2 ≠ l))

/-- `get_tracks(segment)`: the tracks of a given segment. -/
def Annot.getTracks (a : Annot) (s : Segment) : List Track :=
  (a.filter (fun e => decide (e.1 = s))).map (·.2.1)

/-- `a[segment, track]`: label lookup. -/
def Annot.lookup (a : Annot) (s : Segment) (t : Track) : Option Label :=
  (a.find? (fun e => decide (e.1 = s) && decide (e.2.1 = t))).map (·.2.2)

/-- `label_timeline(l)`: timeline of the entries labeled `l`. -/
def Annot.label_timeline (a : Annot) (l : Label) : Timeline :=
  Annot.getTimeline (Annot.subsetIn a l)

/-- One uniform integer draw in `{0, …, n-1}` from a raw stream value `r`:
`random.randrange(n)` and unweighted `np.random.choice(n)`.  For
`0 ≤ r < 1` and `0 < n` this is `⌊r * n⌋`. -/
def qToNat (r : ℚ) (n : ℕ) : ℕ := (Int.floor (r * n)).toNat % n

/-- Inverse CDF of a categorical distribution with (unnormalized) weights
`ws`, evaluated at target `t`: the index whose cumulative weight first
exceeds `t`.  `np.random.choice(len ws, p = ws / total)` at a raw stream
value `r` is modelled as `pickWeighted ws (r * total)`. -/
def pickWeighted : List ℚ → ℚ → ℕ
  | [], _ => 0
  | w :: ws, t => if t < w then 0 else pickWeighted ws (t - w) + 1

/-- The four source shapes the generators dispatch on, plus an unrecognized
one (`other`) for the `TypeError` branch. -/
inductive PySrc
  | scalar (x : ℚ)
  | seg (s : Segment)
  | timeline (t : Timeline)
  | annot (a : Annot)
  | other

/-- `remove_short_segment(timeline, shorter_than)` (fragment.py line 86):
keeps the segments with `duration > shorter_than` (strict). -/
def remove_short_segment (t : Timeline) (shorter_than : ℚ) : Timeline :=
  t.filter (fun s => decide (shorter_than < Segment.duration s))

/-- First value of `random_subsegment(segment, duration)` (fragment.py
line 56, `min_duration=None` branch): one `random.random()` call `r`,
yielding `Segment(t, t + duration)` with
`t = segment.start + r * (segment.duration - duration)`. -/
def random_subsegment_draw (s : Segment) (d : ℚ) (r : ℚ) : Segment :=
  ⟨s.start + r * (Segment.duration s - d), s.start + r * (Segment.duration s - d) + d⟩

/-- One iteration of `random_segment(segments, weighted)` (fragment.py
line 42): the chosen index of `np.random.choice(n_segments, p)` where `p`
is `None` (uniform) or the normalized durations (weighted), from one raw
stream value `r`. -/
def random_segment_choice (segs : List Segment) (weighted : Bool) (r : ℚ) : ℕ :=
  if weighted then
    pickWeighted (segs.map Segment.duration) (r * (segs.map Segment.duration).sum)
  else qToNat r segs.length

/-- `SlidingSegments` instance state: the three constructor parameters
(fragment.py line 107).  `min_duration = none` is the fixed-length mode. -/
structure SlidingSegments where
  duration : ℚ
  step : ℚ
  min_duration : Option ℚ
deriving DecidableEq

/-- `self.variable_length_` (fragment.py line 113). -/
def SlidingSegments.variableLength (g : SlidingSegments) : Bool :=
  g.min_duration.isSome

/-- `self.min_duration` after construction (fragment.py lines 114-117):
the given `min_duration` in variable-length mode, else `duration`. -/
def SlidingSegments.minDur (g : SlidingSegments) : ℚ :=
  g.min_duration.getD g.duration

/-- `SlidingSegments.__init__` (fragment.py lines 107-120): stores the
parameters.  The constructor performs no validation, so it always
succeeds. -/
def SlidingSegments.init (duration step : ℚ) (min_duration : Option ℚ) :
    Except PyErr SlidingSegments :=
  .ok ⟨duration, step, min_duration⟩

/-- Modelled from the spec: `pyannote.core.SlidingWindow` (external
collaborator), as described in the spec's WindowSlicer section — successive
windows of length `duration` placed at stride `step` from `start`,
enumerated while the window's start lies before `stop` (so that every full
window and the first overflowing window with positive overlap are
enumerated).  This model is faithful only for `0 < step`, where a positive
stride eventually exhausts the interval; the spec's placement rule gives
no terminating enumeration for a non-positive stride, so every theorem
below that exercises this definition assumes `0 < step`. -/
def slidingWindowList (duration step start stop : ℚ) : List Segment :=
  (List.range (Int.toNat (Int.ceil ((stop - start) / step)))).map
    (fun i : ℕ => ⟨start + (i : ℚ) * step, start + (i : ℚ) * step + duration⟩)

/-- The `for s in window` loop body of `SlidingSegments.iter_segments`
(fragment.py lines 201-212): fully contained windows are yielded; at the
first non-contained window, fixed-length mode just skips it (no break),
variable-length mode clips it to the segment, yields the clip when its
duration reaches `min_duration`, and breaks. -/
def SlidingSegments.windowLoop (variableLength : Bool) (minDur : ℚ)
    (segment : Segment) : List Segment → List Segment
  | [] => []
  | s :: rest =>
    if Segment.isIn s segment then
      s :: SlidingSegments.windowLoop variableLength minDur segment rest
    else if variableLength then
      if minDur ≤ Segment.duration (Segment.inter s segment) then
        [Segment.inter s segment]
      else []
    else SlidingSegments.windowLoop variableLength minDur segment rest

/-- Per-segment part of `SlidingSegments.iter_segments` (fragment.py lines
183-212): skip segments shorter than `min_duration`; yield whole segments
shorter than `duration` in variable-length mode; otherwise run the sliding
window loop. -/
def SlidingSegments.iterSegmentsSeg (g : SlidingSegments) (segment : Segment) :
    List Segment :=
  if Segment.duration segment < SlidingSegments.minDur g then []
  else if Segment.duration segment < g.duration then
    if SlidingSegments.variableLength g then [segment] else []
  else
    SlidingSegments.windowLoop (SlidingSegments.variableLength g)
      (SlidingSegments.minDur g) segment
      (slidingWindowList g.duration g.step segment.start segment.stop)

/-- `SlidingSegments.iter_segments` (fragment.py lines 154-212): source
shape dispatch, then the per-segment loop over each segment, outputs
concatenated.  Only the scalar branch validates `duration` (line 175);
an unrecognized source raises `TypeError` (line 180). -/
def SlidingSegments.iter_segments (g : SlidingSegments) (src : PySrc) :
    Except PyErr (List Segment) :=
  match src with
  | .annot a =>
      .ok (((Annot.getTimeline a).map (SlidingSegments.iterSegmentsSeg g)).flatten)
  | .timeline t => .ok ((t.map (SlidingSegments.iterSegmentsSeg g)).flatten)
  | .seg s => .ok (SlidingSegments.iterSegmentsSeg g s)
  | .scalar x =>
      if ¬ 0 < g.duration then .error .valueError
      else .ok (SlidingSegments.iterSegmentsSeg g ⟨0, x⟩)
  | .other => .error .typeError

/-- Source shape dispatch of `RandomSegments.iter_segments` (fragment.py
lines 438-454).  The scalar branch first validates `self.duration`
(line 448) and then executes `Segment(0, duration)` (line 450) — but the
name `duration` is unbound there (the parameter is `source`, the field is
`self.duration`), so that branch raises `NameError`. -/
def RandomSegments.sourceSegments (duration : ℚ) :
    PySrc → Except PyErr (List Segment)
  | .annot a => .ok (Annot.getTimeline a)
  | .timeline t => .ok t
  | .seg s => .ok [s]
  | .scalar _ =>
      if ¬ 0 < duration then .error .valueError else .error .nameError
  | .other => .error .typeError

/-- One iteration of the sampling loop of `RandomSegments.iter_segments`
(fragment.py lines 464-470): one `random_segment` choice; if a target
duration is set (truthy), re-check the chosen segment (the `continue`
branch; it is dead once the strict filter ran) and draw one random
subsegment, else yield the whole segment.  Returns the elements yielded by
this iteration and the next stream position. -/
def RandomSegments.drawOne (d : ℚ) (weighted : Bool) (segs : List Segment)
    (rng : ℕ → ℚ) (k : ℕ) : List Segment × ℕ :=
  let seg := segs.getD (random_segment_choice segs weighted (rng k)) default
  if d ≠ 0 then
    if Segment.duration seg < d then ([], k + 1)
    else ([random_subsegment_draw seg d (rng (k + 1))], k + 2)
  else ([seg], k + 1)

/-- `n` iterations of the sampling loop of `RandomSegments.iter_segments`. -/
def RandomSegments.loopIters (d : ℚ) (weighted : Bool) (segs : List Segment)
    (rng : ℕ → ℚ) : ℕ → ℕ → List Segment × ℕ
  | 0, k => ([], k)
  | n + 1, k =>
    let one := RandomSegments.drawOne d weighted segs rng k
    let rest := RandomSegments.loopIters d weighted segs rng n one.2
    (one.1 ++ rest.1, rest.2)

/-- `RandomSegments.iter_segments` (fragment.py lines 427-470), run for `n`
pulls of the (infinite) generator starting at stream position `k`.  A
generator executes nothing before the first pull, so `n = 0` returns
immediately; the first pull runs the dispatch, the strict
`duration > self.duration` filter (line 456) and the emptiness check
(line 459), then the sampling loop. -/
def RandomSegments.iter_segments (d : ℚ) (weighted : Bool) (src : PySrc)
    (rng : ℕ → ℚ) (k n : ℕ) : Except PyErr (List Segment × ℕ) :=
  if n = 0 then .ok ([], k)
  else
    match RandomSegments.sourceSegments d src with
    | .error e => .error e
    | .ok segs =>
      let eligible := segs.filter (fun s => decide (d < Segment.duration s))
      if eligible.isEmpty then .error .valueError
      else .ok (RandomSegments.loopIters d weighted eligible rng n k)

/-- Per-label body of `RandomSegmentsPerLabel.iter_segments` (fragment.py
lines 519-529): take the label's own timeline; when a target duration is
set (`> 0`), drop short segments and skip the label entirely if nothing is
left; then pull from a duration-weighted `RandomSegments` sub-stream,
stopping via `enumerate` at `s == per_label` — which pulls `per_label + 1`
elements and yields the first `per_label` of them, paired with the label. -/
def RandomSegmentsPerLabel.labelBlock (per_label : ℕ) (d : ℚ) (a : Annot)
    (l : Label) (rng : ℕ → ℚ) (k : ℕ) :
    Except PyErr (List (Segment × Label) × ℕ) :=
  let tl := Annot.label_timeline a l
  if 0 < d then
    let tl2 := remove_short_segment tl d
    if tl2.isEmpty then .ok ([], k)
    else
      match RandomSegments.iter_segments d true (.timeline tl2) rng k
          (per_label + 1) with
      | .error e => .error e
      | .ok r => .ok ((r.1.take per_label).map (fun s => (s, l)), r.2)
  else
    match RandomSegments.iter_segments d true (.timeline tl) rng k
        (per_label + 1) with
    | .error e => .error e
    | .ok r => .ok ((r.1.take per_label).map (fun s => (s, l)), r.2)

/-- The label loop of `RandomSegmentsPerLabel.iter_segments`: per-label
blocks concatenated in `labels()` order; a raised exception ends the run. -/
def RandomSegmentsPerLabel.go (per_label : ℕ) (d : ℚ) (a : Annot)
    (rng : ℕ → ℚ) : List Label → ℕ → (List (Segment × Label) × ℕ) × Option PyErr
  | [], k => (([], k), none)
  | l :: ls, k =>
    match RandomSegmentsPerLabel.labelBlock per_label d a l rng k with
    | .error e => (([], k), some e)
    | .ok r =>
      let rest := RandomSegmentsPerLabel.go per_label d a rng ls r.2
      ((r.1 ++ rest.1.1, rest.1.2), rest.2)

/-- `RandomSegmentsPerLabel.iter_segments` (fragment.py lines 508-529),
in its `yield_label=True` form (with `yield_label=False` the same segments
are yielded without their label component). -/
def RandomSegmentsPerLabel.iter_segments (per_label : ℕ) (d : ℚ) (a : Annot)
    (rng : ℕ → ℚ) (k : ℕ) : (List (Segment × Label) × ℕ) × Option PyErr :=
  RandomSegmentsPerLabel.go per_label d a rng (Annot.labels a) k

abbrev TrackItem := Segment × Track × Label
abbrev TrackTriplet := TrackItem × TrackItem × TrackItem
abbrev LabSeg := Segment × Label
abbrev LabTriplet := LabSeg × LabSeg × LabSeg

/-- One pull of `RandomTracks.iter_tracks` (fragment.py lines 560-578):
`random.randrange` over the timeline (raising `ValueError` on an empty
one), `random.choice` over the segment's tracks, and the label lookup.
Two stream positions are consumed.  The `(segment, track, label)` value is
returned; `yield_label` only controls whether the label component is kept
by the caller. -/
def RandomTracks.draw (a : Annot) (rng : ℕ → ℚ) (k : ℕ) :
    Except PyErr (TrackItem × ℕ) :=
  let segments := Annot.getTimeline a
  if segments.isEmpty then .error .valueError
  else
    let segment := segments.getD (qToNat (rng k) segments.length) default
    let tracks := Annot.getTracks a segment
    if tracks.isEmpty then .error .indexError
    else
      let track := tracks.getD (qToNat (rng (k + 1)) tracks.length) 0
      match Annot.lookup a segment track with
      | none => .error .keyError
      | some label => .ok ((segment, track, label), k + 2)

/-- The `for _ in range(self.per_label)` loop of
`RandomTrackTriplets.iter_triplets` (fragment.py lines 624-631): each
iteration draws `anchor` and `positive` from the positive sub-stream and
`negative` from the negative one, then yields the triple.  The
`except StopIteration` clause never fires (the sub-streams are infinite
`while True` loops); a raised exception (e.g. `ValueError` from an empty
restriction) propagates, ending the run with the triples yielded so far. -/
def RandomTrackTriplets.loop (pos neg : Annot) (rng : ℕ → ℚ) :
    ℕ → ℕ → (List TrackTriplet × ℕ) × Option PyErr
  | 0, k => (([], k), none)
  | n + 1, k =>
    match RandomTracks.draw pos rng k with
    | .error e => (([], k), some e)
    | .ok ak =>
      match RandomTracks.draw pos rng ak.2 with
      | .error e => (([], ak.2), some e)
      | .ok pk =>
        match RandomTracks.draw neg rng pk.2 with
        | .error e => (([], pk.2), some e)
        | .ok nk =>
          let rest := RandomTrackTriplets.loop pos neg rng n nk.2
          (((ak.1, pk.1, nk.1) :: rest.1.1, rest.1.2), rest.2)

/-- The label loop of `RandomTrackTriplets.iter_triplets` (fragment.py
lines 616-631): for each label, the positive sub-stream draws from
`subset([label])` and the negative one from `subset([label], invert)`. -/
def RandomTrackTriplets.go (per_label : ℕ) (a : Annot) (rng : ℕ → ℚ) :
    List Label → ℕ → (List TrackTriplet × ℕ) × Option PyErr
  | [], k => (([], k), none)
  | l :: ls, k =>
    let blk := RandomTrackTriplets.loop (Annot.subsetIn a l)
      (Annot.subsetOut a l) rng per_label k
    match blk.2 with
    | some e => ((blk.1.1, blk.1.2), some e)
    | none =>
      let rest := RandomTrackTriplets.go per_label a rng ls blk.1.2
      ((blk.1.1 ++ rest.1.1, rest.1.2), rest.2)

/-- `RandomTrackTriplets.iter_triplets` (fragment.py lines 608-631), in its
`yield_label=True` form (the `(segment, track, label)` items; with
`yield_label=False` the same items are yielded without their label). -/
def RandomTrackTriplets.iter_triplets (per_label : ℕ) (a : Annot)
    (rng : ℕ → ℚ) (k : ℕ) : (List TrackTriplet × ℕ) × Option PyErr :=
  RandomTrackTriplets.go per_label a rng (Annot.labels a) k

/-- The filtered collection built by `RandomSegmentTriplets.iter_triplets`
(fragment.py lines 686-691): entries whose segment is at least `duration`
long. -/
def RandomSegmentTriplets.filterAnn (d : ℚ) (a : Annot) : Annot :=
  a.filter (fun e => decide (¬ Segment.duration e.1 < d))

/-- `RandomSegmentTriplets.pick` (fragment.py lines 664-667): one
`random.random()` call, crop of length `self.duration`. -/
def RandomSegmentTriplets.pick (d : ℚ) (s : Segment) (r : ℚ) : Segment :=
  ⟨s.start + r * (Segment.duration s - d), s.start + r * (Segment.duration s - d) + d⟩

/-- Per-label loop of `RandomSegmentTriplets.iter_triplets` (fragment.py
lines 696-709), fused with the delegated `RandomTrackTriplets` pull
pipeline it wraps so that the stream positions follow the real pull
order: per triplet, six positions for the three track draws, then (when
`duration` is truthy) three positions for the three `pick` crops. -/
def RandomSegmentTriplets.loop (d : ℚ) (pos neg : Annot) (rng : ℕ → ℚ) :
    ℕ → ℕ → (List LabTriplet × ℕ) × Option PyErr
  | 0, k => (([], k), none)
  | n + 1, k =>
    match RandomTracks.draw pos rng k with
    | .error e => (([], k), some e)
    | .ok ak =>
      match RandomTracks.draw pos rng ak.2 with
      | .error e => (([], ak.2), some e)
      | .ok pk =>
        match RandomTracks.draw neg rng pk.2 with
        | .error e => (([], pk.2), some e)
        | .ok nk =>
          let a := ak.1
          let p := pk.1
          let ng := nk.1
          let item : LabTriplet × ℕ :=
            if d ≠ 0 then
              (((RandomSegmentTriplets.pick d a.1 (rng nk.2), a.2.2),
                (RandomSegmentTriplets.pick d p.1 (rng (nk.2 + 1)), p.2.2),
                (RandomSegmentTriplets.pick d ng.1 (rng (nk.2 + 2)), ng.2.2)),
               nk.2 + 3)
            else (((a.1, a.2.2), (p.1, p.2.2), (ng.1, ng.2.2)), nk.2)
          let rest := RandomSegmentTriplets.loop d pos neg rng n item.2
          ((item.1 :: rest.1.1, rest.1.2), rest.2)

/-- Label loop of `RandomSegmentTriplets.iter_triplets` over the filtered
collection. -/
def RandomSegmentTriplets.go (d : ℚ) (per_label : ℕ) (fa : Annot)
    (rng : ℕ → ℚ) : List Label → ℕ → (List LabTriplet × ℕ) × Option PyErr
  | [], k => (([], k), none)
  | l :: ls, k =>
    let blk := RandomSegmentTriplets.loop d (Annot.subsetIn fa l)
      (Annot.subsetOut fa l) rng per_label k
    match blk.2 with
    | some e => ((blk.1.1, blk.1.2), some e)
    | none =>
      let rest := RandomSegmentTriplets.go d per_label fa rng ls blk.1.2
      ((blk.1.1 ++ rest.1.1, rest.1.2), rest.2)

/-- `RandomSegmentTriplets.iter_triplets` (fragment.py lines 674-709), in
its `yield_label=True` form, which yields
`((anchor, its label), (positive, its label), (negative, its label))`
(lines 705-707); with `yield_label=False` the same segments are yielded
without labels (line 709).  The run stops before producing anything when
the filtered collection has fewer than two distinct labels (line 693). -/
def RandomSegmentTriplets.iter_triplets (d : ℚ) (per_label : ℕ) (a : Annot)
    (rng : ℕ → ℚ) (k : ℕ) : (List LabTriplet × ℕ) × Option PyErr :=
  let fa := RandomSegmentTriplets.filterAnn d a
  if (Annot.labels fa).length < 2 then (([], k), none)
  else RandomSegmentTriplets.go d per_label fa rng (Annot.labels fa) k

/-- `RandomSegmentPairs.iter_pairs` (fragment.py lines 750-766): for each
triplet `(query, positive, negative)`, two pairs in order —
`((query, positive), True)` then `((query, negative), False)`. -/
def RandomSegmentPairs.iter_pairs (d : ℚ) (per_label : ℕ) (a : Annot)
    (rng : ℕ → ℚ) (k : ℕ) :
    (List ((LabSeg × LabSeg) × Bool) × ℕ) × Option PyErr :=
  let r := RandomSegmentTriplets.iter_triplets d per_label a rng k
  (((r.1.1.map (fun t => [((t.1, t.2.1), true), ((t.1, t.2.2), false)])).flatten,
    r.1.2), r.2)

/-- The atoms (Python dicts) appearing in `signature()` values. -/
inductive SigElem
  | segD (duration : ℚ)
  | segMM (minD maxD : ℚ)
  | lab
  | trk
  | boolT
  | ts
deriving DecidableEq

/-- Structural (positional) shape of a generator's emitted values: leaves
for the atomic payloads, `tup` for a tuple/list of positions. -/
inductive PyShape
  | seg
  | lab
  | trk
  | boolS
  | time
  | tup (l : List PyShape)

/-- The value shape a signature atom declares. -/
def SigElem.shape : SigElem → PyShape
  | .segD _ => .seg
  | .segMM _ _ => .seg
  | .lab => .lab
  | .trk => .trk
  | .boolT => .boolS
  | .ts => .time

/-- `RandomSegmentTriplets.signature` (fragment.py lines 657-662).  Both
branches build a flat Python list by list repetition:
`3 * [seg, label]` is the six-element `[seg, label, seg, label, seg, label]`
and `3 * [seg]` the three-element `[seg, seg, seg]`. -/
def RandomSegmentTriplets.signature (d : ℚ) (yield_label : Bool) :
    List SigElem :=
  if yield_label then
    (List.replicate 3 [SigElem.segD d, SigElem.lab]).flatten
  else List.replicate 3 (SigElem.segD d)

/-- The positional shape a flat-list signature declares. -/
def sigShape (sig : List SigElem) : PyShape :=
  .tup (sig.map SigElem.shape)

/-- Structural shape of the values `RandomSegmentTriplets.iter_triplets`
yields with `yield_label=True`: a triple of `(segment, label)` pairs
(fragment.py line 707). -/
def labTripletShape (_ : LabTriplet) : PyShape :=
  .tup [.tup [.seg, .lab], .tup [.seg, .lab], .tup [.seg, .lab]]

/-- Structural shape of the values yielded with `yield_label=False`: a
triple of segments (fragment.py line 709). -/
def segTripletShape (_ : Segment × Segment × Segment) : PyShape :=
  .tup [.seg, .seg, .seg]

/-- A concrete stream: all draws read `0`. -/
def rngZero : ℕ → ℚ := fun _ => 0

/-- A concrete stream whose position 6 (the segment index of the second
anchor draw of a label's first sub-stream) reads `1/2`, all other
positions `0`. -/
def rngC2 : ℕ → ℚ := fun k => if k = 6 then 1/2 else 0

/-- Two labels, one track each. -/
def annC1 : Annot := [(⟨0, 1⟩, 0, 1), (⟨2, 3⟩, 0, 2)]

/-- Label 10 on two segments, label 20 on one. -/
def annC2 : Annot := [(⟨0, 1⟩, 0, 10), (⟨2, 3⟩, 0, 10), (⟨4, 5⟩, 0, 20)]

/-- A single entry, hence exactly one distinct label. -/
def annC3 : Annot := [(⟨0, 1⟩, 0, 5)]

/-- One label over one segment of duration 2. -/
def annC10 : Annot := [(⟨0, 2⟩, 0, 3)]

/-! ### Helper facts and claim theorems -/

/-- A zero raw draw always selects index 0. -/
theorem qToNat_zero (n : ℕ) : qToNat 0 n = 0 := by
  simp [qToNat]

/-- A raw draw of `1/2` over two alternatives selects index 1. -/
theorem qToNat_half_two : qToNat (1/2) 2 = 1 := by
  have h : (1/2 : ℚ) * ((2:ℕ) : ℚ) = 1 := by norm_num
  simp [qToNat, h]

/-- A track draw over the two label-10 entries of `annC2` with a zero
stream value picks the first one. -/
theorem drawP10a (rng : ℕ → ℚ) (k : ℕ) (h0 : rng k = 0) :
    RandomTracks.draw [((⟨0,1⟩:Segment),0,10), ((⟨2,3⟩:Segment),0,10)] rng k
      = .ok (((⟨0,1⟩:Segment),0,10), k+2) := by
  norm_num [RandomTracks.draw, Annot.getTimeline, Annot.getTracks, Annot.lookup,
    h0, qToNat_zero, Segment.mk.injEq]

/-- A track draw over the two label-10 entries of `annC2` with stream
value `1/2` picks the second one. -/
theorem drawP10b (rng : ℕ → ℚ) (k : ℕ) (h0 : rng k = 1/2) :
    RandomTracks.draw [((⟨0,1⟩:Segment),0,10), ((⟨2,3⟩:Segment),0,10)] rng k
      = .ok (((⟨2,3⟩:Segment),0,10), k+2) := by
  norm_num [RandomTracks.draw, Annot.getTimeline, Annot.getTracks, Annot.lookup,
    h0, qToNat_half_two, Segment.mk.injEq]

/-- A track draw over a one-entry collection returns that entry, whatever
the stream holds. -/
theorem drawSingle (s : Segment) (t : Track) (l : Label) (rng : ℕ → ℚ) (k : ℕ) :
    RandomTracks.draw [(s,t,l)] rng k = .ok ((s,t,l), k+2) := by
  simp [RandomTracks.draw, Annot.getTimeline, Annot.getTracks, Annot.lookup, qToNat,
    Nat.mod_one]

/-- C7 counterexample: constructing `SlidingSegments` with `duration = -1`
and `step = -2` (both non-positive) succeeds — no `InvalidParameter` (or
any) error is raised at construction time. -/
theorem c7_counterexample :
    SlidingSegments.init (-1) (-2) none = .ok ⟨-1, -2, none⟩ := rfl

/-- C7 (amended): the constructor performs no validation at all — any
`duration`/`step`, non-positive included, is accepted; the only duration
check of `SlidingSegments` runs at iteration time and only for a
bare-scalar source (`ValueError` when `duration ≤ 0`), and with valid
parameters (`0 < duration`, `0 < step`, the regime where the external
SlidingWindow model is faithful) a scalar-source iteration succeeds, so
no further validation occurs there either. -/
theorem c7_no_validation_at_construction (d s x : ℚ) (md : Option ℚ) :
    SlidingSegments.init d s md = .ok ⟨d, s, md⟩ ∧
    (¬ 0 < d →
      SlidingSegments.iter_segments ⟨d, s, md⟩ (.scalar x) = .error .valueError) ∧
    (0 < d → 0 < s →
      ∃ l, SlidingSegments.iter_segments ⟨d, s, md⟩ (.scalar x) = .ok l) := by
  refine ⟨rfl, fun h => ?_, fun h _ => ?_⟩
  · simp [SlidingSegments.iter_segments, h]
  · refine ⟨SlidingSegments.iterSegmentsSeg ⟨d, s, md⟩ ⟨0, x⟩, ?_⟩
    simp [SlidingSegments.iter_segments, h]

/-- C7 witness: the amended statement at `duration = -1`, `step = -2`
(construction and the scalar-source error) and at `duration = 3`,
`step = 2` (the valid-parameter success). -/
theorem c7_witness :
    SlidingSegments.init (-1) (-2) none = .ok ⟨-1, -2, none⟩ ∧
    SlidingSegments.iter_segments ⟨-1, -2, none⟩ (.scalar 5) = .error .valueError ∧
    ∃ l, SlidingSegments.iter_segments ⟨3, 2, none⟩ (.scalar 5) = .ok l :=
  ⟨(c7_no_validation_at_construction (-1) (-2) 5 none).1,
   (c7_no_validation_at_construction (-1) (-2) 5 none).2.1 (by norm_num),
   (c7_no_validation_at_construction 3 2 5 none).2.2 (by norm_num) (by norm_num)⟩

/-- C8 (code bug): a bare scalar source is recognized by the dispatch and
passes the positive-duration check, but the branch then evaluates the
unbound name `duration` (fragment.py line 450, which should read
`source`), so the first pull raises `NameError` instead of sampling within
`[0, source)`; an unrecognized source still raises `TypeError` as the
claim says. -/
theorem c8_scalar_source_raises_name_error :
    RandomSegments.iter_segments 1 false (.scalar 5) rngZero 0 1
      = .error .nameError ∧
    RandomSegments.iter_segments 1 false .other rngZero 0 1
      = .error .typeError := ⟨rfl, rfl⟩

/-- C6 counterexample: a collection whose only interval has duration
exactly equal to the target duration (here both `3`) is filtered out by
the strict `duration > self.duration` test, so the first pull fails with
the no-eligible-source `ValueError` — contradicting the claim that such a
collection is eligible. -/
theorem c6_counterexample :
    RandomSegments.iter_segments 3 false (.timeline [⟨0, 3⟩]) rngZero 0 1
      = .error .valueError := by
  norm_num [RandomSegments.iter_segments, RandomSegments.sourceSegments,
    Segment.duration, List.filter]

/-- C3 counterexample: on a collection with exactly one distinct label,
`RandomTrackTriplets.iter_triplets` yields nothing and raises `ValueError`
(the negative sub-stream runs `random.randrange(0)` on the empty inverted
subset; only `StopIteration` is caught) — it does not terminate cleanly as
the claim states. -/
theorem c3_counterexample :
    (Annot.labels annC3).length = 1 ∧
    (RandomTrackTriplets.iter_triplets 40 annC3 rngZero 0).1.1 = [] ∧
    (RandomTrackTriplets.iter_triplets 40 annC3 rngZero 0).2
      = some .valueError := by
  have hloop : RandomTrackTriplets.loop (Annot.subsetIn annC3 5)
      (Annot.subsetOut annC3 5) rngZero 40 0 = (([], 4), some .valueError) := by
    rw [show (40 : ℕ) = 39 + 1 from rfl]
    rw [RandomTrackTriplets.loop]
    simp only [RandomTracks.draw, annC3, rngZero, qToNat_zero, Annot.getTimeline,
      Annot.getTracks, Annot.lookup, Annot.subsetIn, Annot.subsetOut]
    norm_num
  have hlab : Annot.labels annC3 = [5] := by simp [Annot.labels, annC3]
  refine ⟨by rw [hlab]; rfl, ?_, ?_⟩ <;>
    simp [RandomTrackTriplets.iter_triplets, RandomTrackTriplets.go, hlab, hloop]

/-- C2 counterexample: with two tracks of label `10` and stream `rngC2`,
the two triplets emitted for label `10` carry different anchors (segment
`[0,1)` then segment `[2,3)`): the anchor is drawn afresh inside the
per-label loop, not reserved from the first positive draw. -/
theorem c2_counterexample :
    (RandomTrackTriplets.iter_triplets 2 annC2 rngC2 0).1.1.length = 4 ∧
    ((RandomTrackTriplets.iter_triplets 2 annC2 rngC2 0).1.1.getD 0 default).1.2.2
      = 10 ∧
    ((RandomTrackTriplets.iter_triplets 2 annC2 rngC2 0).1.1.getD 1 default).1.2.2
      = 10 ∧
    ((RandomTrackTriplets.iter_triplets 2 annC2 rngC2 0).1.1.getD 0 default).1
      ≠ ((RandomTrackTriplets.iter_triplets 2 annC2 rngC2 0).1.1.getD 1 default).1 := by
  have hrun :
      RandomTrackTriplets.iter_triplets 2 annC2 rngC2 0
        = (([ (((⟨0,1⟩:Segment),0,10), ((⟨0,1⟩:Segment),0,10), ((⟨4,5⟩:Segment),0,20)),
              (((⟨2,3⟩:Segment),0,10), ((⟨0,1⟩:Segment),0,10), ((⟨4,5⟩:Segment),0,20)),
              (((⟨4,5⟩:Segment),0,20), ((⟨4,5⟩:Segment),0,20), ((⟨0,1⟩:Segment),0,10)),
              (((⟨4,5⟩:Segment),0,20), ((⟨4,5⟩:Segment),0,20), ((⟨0,1⟩:Segment),0,10))],
            24), none) := by
    have hlab : Annot.labels annC2 = [10, 20] := by norm_num [Annot.labels, annC2]
    have hp10 : Annot.subsetIn annC2 10 = [(⟨0,1⟩,0,10), (⟨2,3⟩,0,10)] := by
      norm_num [Annot.subsetIn, annC2]
    have hn10 : Annot.subsetOut annC2 10 = [(⟨4,5⟩,0,20)] := by
      norm_num [Annot.subsetOut, annC2]
    have hp20 : Annot.subsetIn annC2 20 = [(⟨4,5⟩,0,20)] := by
      norm_num [Annot.subsetIn, annC2]
    have hn20 : Annot.subsetOut annC2 20 = [(⟨0,1⟩,0,10), (⟨2,3⟩,0,10)] := by
      norm_num [Annot.subsetOut, annC2]
    have d0 := drawP10a rngC2 0 (by norm_num [rngC2])
    have d2 := drawP10a rngC2 2 (by norm_num [rngC2])
    have d4 := drawSingle ⟨4,5⟩ 0 20 rngC2 4
    have d6 := drawP10b rngC2 6 (by norm_num [rngC2])
    have d8 := drawP10a rngC2 8 (by norm_num [rngC2])
    have d10 := drawSingle ⟨4,5⟩ 0 20 rngC2 10
    have l10 : RandomTrackTriplets.loop [((⟨0,1⟩:Segment),0,10), ((⟨2,3⟩:Segment),0,10)]
        [((⟨4,5⟩:Segment),0,20)] rngC2 2 0
        = (([ (((⟨0,1⟩:Segment),0,10), ((⟨0,1⟩:Segment),0,10), ((⟨4,5⟩:Segment),0,20)),
              (((⟨2,3⟩:Segment),0,10), ((⟨0,1⟩:Segment),0,10), ((⟨4,5⟩:Segment),0,20))],
            12), none) := by
      simp only [show (2:ℕ) = 1+1 from rfl, RandomTrackTriplets.loop, d0, d2, d4, d6,
        d8, d10]
    have d12 := drawSingle ⟨4,5⟩ 0 20 rngC2 12
    have d14 := drawSingle ⟨4,5⟩ 0 20 rngC2 14
    have d16 := drawP10a rngC2 16 (by norm_num [rngC2])
    have d18 := drawSingle ⟨4,5⟩ 0 20 rngC2 18
    have d20 := drawSingle ⟨4,5⟩ 0 20 rngC2 20
    have d22 := drawP10a rngC2 22 (by norm_num [rngC2])
    have l20 : RandomTrackTriplets.loop [((⟨4,5⟩:Segment),0,20)]
        [((⟨0,1⟩:Segment),0,10), ((⟨2,3⟩:Segment),0,10)] rngC2 2 12
        = (([ (((⟨4,5⟩:Segment),0,20), ((⟨4,5⟩:Segment),0,20), ((⟨0,1⟩:Segment),0,10)),
              (((⟨4,5⟩:Segment),0,20), ((⟨4,5⟩:Segment),0,20), ((⟨0,1⟩:Segment),0,10))],
            24), none) := by
      simp only [show (2:ℕ) = 1+1 from rfl, RandomTrackTriplets.loop, d12, d14, d16,
        d18, d20, d22]
    rw [RandomTrackTriplets.iter_triplets, hlab]
    simp only [RandomTrackTriplets.go, hp10, hn10, hp20, hn20, l10, l20,
      List.cons_append, List.nil_append, List.append_nil]
  rw [hrun]
  refine ⟨rfl, rfl, rfl, ?_⟩
  simp only [List.getD, ne_eq, Prod.mk.injEq, Segment.mk.injEq]
  norm_num

/-- C9 (code bug): with `yield_label=True`, `signature()` is the flat
six-position list `3 * [segment, label]`, while the values the iteration
yields are triples of `(segment, label)` pairs — the declared positional
shape differs from the yielded one; with `yield_label=False` the two
agree. -/
theorem c9_signature_shape_mismatch (d : ℚ) (v : LabTriplet)
    (w : Segment × Segment × Segment) :
    sigShape (RandomSegmentTriplets.signature d true)
      = PyShape.tup [.seg, .lab, .seg, .lab, .seg, .lab] ∧
    labTripletShape v
      = PyShape.tup [.tup [.seg, .lab], .tup [.seg, .lab], .tup [.seg, .lab]] ∧
    sigShape (RandomSegmentTriplets.signature d true) ≠ labTripletShape v ∧
    sigShape (RandomSegmentTriplets.signature d false) = segTripletShape w := by
  refine ⟨rfl, rfl, ?_, rfl⟩
  intro h
  simp [sigShape, RandomSegmentTriplets.signature, labTripletShape,
    SigElem.shape] at h

/-- Containment unfolding. -/
theorem Segment.isIn_iff {s seg : Segment} :
    Segment.isIn s seg = true ↔ seg.start ≤ s.start ∧ s.stop ≤ seg.stop := by
  simp [Segment.isIn]

/-- In fixed-length mode the window loop keeps exactly the fully contained
windows (no break: later windows are still inspected). -/
theorem windowLoop_fixed (m : ℚ) (seg : Segment) (ws : List Segment) :
    SlidingSegments.windowLoop false m seg ws
      = ws.filter (fun s => Segment.isIn s seg) := by
  induction ws with
  | nil => rfl
  | cons s rest ih =>
    cases h : Segment.isIn s seg <;>
      simp [SlidingSegments.windowLoop, h, List.filter_cons, ih]

/-- In variable-length mode the loop copies a list of fully contained
windows. -/
theorem windowLoop_var_all (m : ℚ) (seg : Segment) (ws : List Segment)
    (h : ∀ s ∈ ws, Segment.isIn s seg = true) :
    SlidingSegments.windowLoop true m seg ws = ws := by
  induction ws with
  | nil => rfl
  | cons s rest ih =>
    have hs := h s (by simp)
    simp [SlidingSegments.windowLoop, hs, ih (fun x hx => h x (by simp [hx]))]

/-- In variable-length mode the loop stops at the first non-contained
window: it emits the contained prefix, then the clipped window when long
enough, and ignores everything after the break. -/
theorem windowLoop_var_split (m : ℚ) (seg : Segment) (ws1 : List Segment)
    (y : Segment) (ws2 : List Segment)
    (h1 : ∀ s ∈ ws1, Segment.isIn s seg = true)
    (hy : Segment.isIn y seg = false) :
    SlidingSegments.windowLoop true m seg (ws1 ++ y :: ws2)
      = ws1 ++ (if m ≤ Segment.duration (Segment.inter y seg)
          then [Segment.inter y seg] else []) := by
  induction ws1 with
  | nil => simp [SlidingSegments.windowLoop, hy]
  | cons s rest ih =>
    have hs := h1 s (by simp)
    simp [SlidingSegments.windowLoop, hs, ih (fun x hx => h1 x (by simp [hx]))]

/-- Filtering a mapped list. -/
theorem filter_of_map {α β : Type} (f : α → β) (p : β → Bool) (l : List α) :
    (l.map f).filter p = (l.filter (fun x => p (f x))).map f := by
  induction l with
  | nil => rfl
  | cons x xs ih => cases h : p (f x) <;> simp [List.filter_cons, h, ih]

/-- Filtering `range N` by `· < n` gives `range n` when `n ≤ N`. -/
theorem range_filter_lt (n N : ℕ) (h : n ≤ N) :
    (List.range N).filter (fun i => decide (i < n)) = List.range n := by
  induction N with
  | zero =>
    have hn : n = 0 := Nat.le_zero.mp h
    subst hn; rfl
  | succ N ih =>
    rcases Nat.lt_or_ge N n with hlt | hge
    · have hn : n = N + 1 := Nat.le_antisymm h hlt
      subst hn
      apply List.filter_eq_self.mpr
      intro a ha
      simpa using List.mem_range.mp ha
    · rw [List.range_succ, List.filter_append, ih hge]
      simp [Nat.not_lt.mpr hge]

/-- The `i`-th window is contained in `⟨a, b⟩` exactly when it ends within
the segment. -/
theorem window_isIn_iff (D S a b : ℚ) (hS : 0 ≤ S) (i : ℕ) :
    Segment.isIn ⟨a + i * S, a + i * S + D⟩ ⟨a, b⟩ = true
      ↔ (i : ℚ) * S + D ≤ b - a := by
  rw [Segment.isIn_iff]
  have h0 : (0:ℚ) ≤ (i:ℚ) * S := mul_nonneg (Nat.cast_nonneg i) hS
  constructor
  · rintro ⟨-, h2⟩
    simp only at h2
    linarith
  · intro h2
    exact ⟨by simp only; linarith, by simp only; linarith⟩

/-- The window-end condition as an index bound: windows `0, …, nF - 1`
with `nF = ⌊(L - D)/S⌋ + 1` are the full ones. -/
theorem window_index_iff (L D S : ℚ) (hS : 0 < S) (hL : D ≤ L) (i : ℕ) :
    (i:ℚ) * S + D ≤ L ↔ i < (Int.floor ((L - D)/S)).toNat + 1 := by
  have hq : (0:ℚ) ≤ (L - D)/S := div_nonneg (by linarith) hS.le
  have hfl : (0:ℤ) ≤ Int.floor ((L - D)/S) := Int.floor_nonneg.mpr hq
  have h1 : (i:ℚ) * S + D ≤ L ↔ (i:ℚ) ≤ (L - D)/S := by
    rw [le_div_iff hS]
    constructor <;> intro h <;> linarith
  rw [h1, show ((i:ℚ)) = (((i:ℕ):ℤ):ℚ) by push_cast; ring, ← Int.le_floor]
  omega

/-- The window count of the spec-modelled enumeration covers all full
windows. -/
theorem nF_le_numWindows (L D S : ℚ) (hD : 0 < D) (hS : 0 < S) (hL : D ≤ L) :
    (Int.floor ((L - D)/S)).toNat + 1 ≤ (Int.ceil (L/S)).toNat := by
  have hq : (0:ℚ) ≤ (L - D)/S := div_nonneg (by linarith) hS.le
  have hfl : (0:ℤ) ≤ Int.floor ((L - D)/S) := Int.floor_nonneg.mpr hq
  have hlt : Int.floor ((L - D)/S) < Int.ceil (L/S) := by
    rw [Int.lt_ceil]
    calc ((Int.floor ((L - D)/S) : ℤ) : ℚ) ≤ (L - D)/S := Int.floor_le _
      _ < L/S := (div_lt_div_right hS).mpr (by linarith)
  omega

/-- The window after the last full one overflows the segment. -/
theorem window_nF_overflow (L D S : ℚ) (hS : 0 < S) (hL : D ≤ L) :
    L - D < (((Int.floor ((L - D)/S)).toNat + 1 : ℕ) : ℚ) * S := by
  have hq : (0:ℚ) ≤ (L - D)/S := div_nonneg (by linarith) hS.le
  have hfl : (0:ℤ) ≤ Int.floor ((L - D)/S) := Int.floor_nonneg.mpr hq
  have h2 : (L - D)/S < (Int.floor ((L - D)/S) : ℚ) + 1 := Int.lt_floor_add_one _
  have hcast : (((Int.floor ((L - D)/S)).toNat + 1 : ℕ) : ℚ)
      = (Int.floor ((L - D)/S) : ℚ) + 1 := by
    rw [Nat.cast_add, Nat.cast_one]
    congr 1
    rw [← Int.cast_natCast, Int.toNat_of_nonneg hfl]
  rw [hcast]
  have h3 := (div_lt_iff hS).mp h2
  linarith

/-- The spec-modelled enumeration reaches the segment's end. -/
theorem ceil_windows_cover (L S : ℚ) (hS : 0 < S) (hL : 0 < L) :
    L ≤ ((Int.ceil (L/S)).toNat : ℚ) * S := by
  have h1 : L/S ≤ ((Int.ceil (L/S) : ℤ) : ℚ) := Int.le_ceil _
  have h2 : (0:ℤ) ≤ Int.ceil (L/S) := Int.ceil_nonneg (div_nonneg hL.le hS.le)
  have h3 : (((Int.ceil (L/S)).toNat : ℕ) : ℚ) = ((Int.ceil (L/S) : ℤ) : ℚ) := by
    rw [← Int.cast_natCast, Int.toNat_of_nonneg h2]
  rw [h3]
  exact (div_le_iff hS).mp h1

/-- C4 (confirmed): with no `min_duration` configured and `0 < duration`,
`0 < step`, an interval of length `L ≥ D` is sliced into exactly
`⌊(L - D)/S⌋ + 1` windows of duration exactly `D` at offsets
`0, S, 2S, …` from the interval's start, and an interval with `L < D`
yields no windows. -/
theorem c4_fixed_window_slicing (D S : ℚ) (seg : Segment)
    (hD : 0 < D) (hS : 0 < S) :
    (D ≤ Segment.duration seg →
      SlidingSegments.iterSegmentsSeg ⟨D, S, none⟩ seg
        = (List.range ((Int.floor ((Segment.duration seg - D)/S)).toNat + 1)).map
            (fun i : ℕ => ⟨seg.start + (i : ℚ) * S, seg.start + (i : ℚ) * S + D⟩)) ∧
    (Segment.duration seg < D →
      SlidingSegments.iterSegmentsSeg ⟨D, S, none⟩ seg = []) := by
  constructor
  · intro hL
    obtain ⟨a, b⟩ := seg
    simp only [Segment.duration] at hL ⊢
    have hnot : ¬ b - a < D := not_lt.mpr hL
    simp only [SlidingSegments.iterSegmentsSeg, SlidingSegments.minDur,
      SlidingSegments.variableLength, Option.getD_none, Option.isSome_none,
      Segment.duration]
    rw [if_neg hnot, if_neg hnot]
    rw [windowLoop_fixed, slidingWindowList, filter_of_map]
    have hcong : ∀ i ∈ List.range (Int.toNat (Int.ceil ((b - a) / S))),
        (Segment.isIn ⟨a + i * S, a + i * S + D⟩ ⟨a, b⟩)
          = decide (i < (Int.floor ((b - a - D)/S)).toNat + 1) := by
      intro i _
      have hiff := (window_isIn_iff D S a b hS.le i).trans
        (window_index_iff (b - a) D S hS hL i)
      cases hb : Segment.isIn ⟨a + i * S, a + i * S + D⟩ ⟨a, b⟩
      · have hn : ¬ i < (Int.floor ((b - a - D)/S)).toNat + 1 := by
          intro hc
          rw [hiff.mpr hc] at hb
          cases hb
        simp [hn]
      · simp [hiff.mp hb]
    rw [List.filter_congr hcong]
    rw [range_filter_lt _ _ (nF_le_numWindows (b - a) D S hD hS hL)]
  · intro hL
    obtain ⟨a, b⟩ := seg
    simp only [Segment.duration] at hL
    simp [SlidingSegments.iterSegmentsSeg, SlidingSegments.minDur,
      Segment.duration, hL]

/-- C4 witness: `D = 3`, `S = 1`, interval `[0, 10)`. -/
theorem c4_witness :
    (0:ℚ) < 3 ∧ (0:ℚ) < 1 ∧
    (((3:ℚ) ≤ Segment.duration ⟨0, 10⟩ →
      SlidingSegments.iterSegmentsSeg ⟨3, 1, none⟩ ⟨0, 10⟩
        = (List.range ((Int.floor ((Segment.duration (⟨0, 10⟩ : Segment) - 3)/1)).toNat + 1)).map
            (fun i : ℕ => ⟨(⟨0, 10⟩ : Segment).start + (i : ℚ) * 1,
                           (⟨0, 10⟩ : Segment).start + (i : ℚ) * 1 + 3⟩)) ∧
    (Segment.duration (⟨0, 10⟩ : Segment) < 3 →
      SlidingSegments.iterSegmentsSeg ⟨3, 1, none⟩ ⟨0, 10⟩ = [])) :=
  ⟨by norm_num, by norm_num,
    c4_fixed_window_slicing 3 1 ⟨0, 10⟩ (by norm_num) (by norm_num)⟩

/-- Splitting `range N` at an interior index. -/
theorem range_decomp (nF N : ℕ) (h : nF < N) :
    List.range N
      = List.range nF ++ nF :: ((List.range (N - nF - 1)).map (fun x => nF + (1 + x))) := by
  have h1 : N = nF + (1 + (N - nF - 1)) := by omega
  rw [h1, List.range_add, List.range_add]
  simp [List.map_map, Function.comp_def, show List.range 1 = [0] from rfl]

/-- C5 (confirmed): in variable-length mode with `0 < min_duration ≤
duration` and `0 < step`, an interval of length `L ≥ D` yields its full
windows and then exactly one clipped window ending at the interval's end —
present if and only if the clipped duration reaches `min_duration` — and
nothing afterwards; an interval with `m ≤ L < D` is yielded once, whole. -/
theorem c5_variable_window_slicing (D S m : ℚ) (seg : Segment)
    (hm : 0 < m) (hmD : m ≤ D) (hS : 0 < S) :
    (D ≤ Segment.duration seg →
      SlidingSegments.iterSegmentsSeg ⟨D, S, some m⟩ seg
        = (List.range ((Int.floor ((Segment.duration seg - D)/S)).toNat + 1)).map
            (fun i : ℕ => ⟨seg.start + (i : ℚ) * S, seg.start + (i : ℚ) * S + D⟩)
          ++ (if m ≤ Segment.duration seg
                  - ((((Int.floor ((Segment.duration seg - D)/S)).toNat + 1 : ℕ)) : ℚ) * S
              then [⟨seg.start
                  + ((((Int.floor ((Segment.duration seg - D)/S)).toNat + 1 : ℕ)) : ℚ) * S,
                  seg.stop⟩]
              else [])) ∧
    (m ≤ Segment.duration seg → Segment.duration seg < D →
      SlidingSegments.iterSegmentsSeg ⟨D, S, some m⟩ seg = [seg]) := by
  have hD : 0 < D := lt_of_lt_of_le hm hmD
  constructor
  · intro hL
    obtain ⟨a, b⟩ := seg
    simp only [Segment.duration] at hL ⊢
    have hnotm : ¬ b - a < m := not_lt.mpr (le_trans hmD hL)
    have hnotD : ¬ b - a < D := not_lt.mpr hL
    simp only [SlidingSegments.iterSegmentsSeg, SlidingSegments.minDur,
      SlidingSegments.variableLength, Option.getD_some, Option.isSome_some,
      Segment.duration]
    rw [if_neg hnotm, if_neg hnotD, slidingWindowList]
    have hnFN := nF_le_numWindows (b - a) D S hD hS hL
    have hin : ∀ s ∈ (List.range ((Int.floor ((b - a - D)/S)).toNat + 1)).map
        (fun i : ℕ => (⟨a + (i : ℚ) * S, a + (i : ℚ) * S + D⟩ : Segment)),
        Segment.isIn s ⟨a, b⟩ = true := by
      intro s hs
      obtain ⟨i, hi, rfl⟩ := List.mem_map.mp hs
      exact (window_isIn_iff D S a b hS.le i).mpr
        ((window_index_iff (b - a) D S hS hL i).mpr (List.mem_range.mp hi))
    have hOv := window_nF_overflow (b - a) D S hS hL
    rcases Nat.lt_or_ge ((Int.floor ((b - a - D)/S)).toNat + 1)
        ((Int.ceil ((b - a)/S)).toNat) with hlt | hge
    · rw [range_decomp _ _ hlt, List.map_append, List.map_cons]
      have hy : Segment.isIn
          ⟨a + ((((Int.floor ((b - a - D)/S)).toNat + 1 : ℕ)) : ℚ) * S,
           a + ((((Int.floor ((b - a - D)/S)).toNat + 1 : ℕ)) : ℚ) * S + D⟩ ⟨a, b⟩
          = false := by
        rw [Bool.eq_false_iff]
        intro hc
        have h1 := (window_isIn_iff D S a b hS.le
          ((Int.floor ((b - a - D)/S)).toNat + 1)).mp hc
        linarith
      rw [windowLoop_var_split m ⟨a, b⟩ _ _ _ hin hy]
      have hle1 : a ≤ a + ((((Int.floor ((b - a - D)/S)).toNat + 1 : ℕ)) : ℚ) * S :=
        le_add_of_nonneg_right (mul_nonneg (Nat.cast_nonneg _) hS.le)
      have hle2 : b ≤ a + ((((Int.floor ((b - a - D)/S)).toNat + 1 : ℕ)) : ℚ) * S + D := by
        linarith
      have hinter : Segment.inter
          ⟨a + ((((Int.floor ((b - a - D)/S)).toNat + 1 : ℕ)) : ℚ) * S,
           a + ((((Int.floor ((b - a - D)/S)).toNat + 1 : ℕ)) : ℚ) * S + D⟩ ⟨a, b⟩
          = ⟨a + ((((Int.floor ((b - a - D)/S)).toNat + 1 : ℕ)) : ℚ) * S, b⟩ := by
        simp only [Segment.inter]
        rw [max_eq_left hle1, min_eq_right hle2]
      rw [hinter]
      simp only [Segment.duration]
      congr 1
      apply if_congr (by constructor <;> intro h <;> linarith) rfl rfl
    · have hEq : (Int.ceil ((b - a)/S)).toNat = (Int.floor ((b - a - D)/S)).toNat + 1 :=
        le_antisymm hge hnFN
      rw [hEq, windowLoop_var_all m ⟨a, b⟩ _ hin]
      have hcov : b - a ≤ ((((Int.floor ((b - a - D)/S)).toNat + 1 : ℕ)) : ℚ) * S := by
        have hc := ceil_windows_cover (b - a) S hS (by linarith)
        rw [hEq] at hc
        exact hc
      rw [if_neg (by intro hc; linarith)]
      simp
  · intro hmL hLD
    obtain ⟨a, b⟩ := seg
    simp only [Segment.duration] at hmL hLD
    simp only [SlidingSegments.iterSegmentsSeg, SlidingSegments.minDur,
      SlidingSegments.variableLength, Option.getD_some, Option.isSome_some,
      Segment.duration]
    rw [if_neg (not_lt.mpr hmL), if_pos hLD]
    simp

/-- C5 witness: `D = 3`, `S = 2`, `m = 1`, interval `[0, 10)`. -/
theorem c5_witness :
    (0:ℚ) < 1 ∧ (1:ℚ) ≤ 3 ∧ (0:ℚ) < 2 ∧
    ((((3:ℚ) ≤ Segment.duration ⟨0, 10⟩ →
      SlidingSegments.iterSegmentsSeg ⟨3, 2, some 1⟩ ⟨0, 10⟩
        = (List.range ((Int.floor ((Segment.duration (⟨0, 10⟩ : Segment) - 3)/2)).toNat + 1)).map
            (fun i : ℕ => ⟨(⟨0, 10⟩ : Segment).start + (i : ℚ) * 2,
                           (⟨0, 10⟩ : Segment).start + (i : ℚ) * 2 + 3⟩)
          ++ (if (1:ℚ) ≤ Segment.duration (⟨0, 10⟩ : Segment)
                  - ((((Int.floor ((Segment.duration (⟨0, 10⟩ : Segment) - 3)/2)).toNat + 1 : ℕ)) : ℚ) * 2
              then [⟨(⟨0, 10⟩ : Segment).start
                  + ((((Int.floor ((Segment.duration (⟨0, 10⟩ : Segment) - 3)/2)).toNat + 1 : ℕ)) : ℚ) * 2,
                  (⟨0, 10⟩ : Segment).stop⟩]
              else [])) ∧
    ((1:ℚ) ≤ Segment.duration (⟨0, 10⟩ : Segment) → Segment.duration (⟨0, 10⟩ : Segment) < 3 →
      SlidingSegments.iterSegmentsSeg ⟨3, 2, some 1⟩ ⟨0, 10⟩ = [(⟨0, 10⟩ : Segment)]))) :=
  ⟨by norm_num, by norm_num, by norm_num,
    c5_variable_window_slicing 3 2 1 ⟨0, 10⟩ (by norm_num) (by norm_num) (by norm_num)⟩

/-- Entries of `subset([l])` carry label `l`. -/
theorem mem_subsetIn_label {a : Annot} {l : Label} {e : TrackItem}
    (h : e ∈ Annot.subsetIn a l) : e.2.2 = l := by
  simp only [Annot.subsetIn, List.mem_filter, decide_eq_true_eq] at h
  exact h.2

/-- Entries of `subset([l], invert)` do not carry label `l`. -/
theorem mem_subsetOut_label {a : Annot} {l : Label} {e : TrackItem}
    (h : e ∈ Annot.subsetOut a l) : e.2.2 ≠ l := by
  simp only [Annot.subsetOut, List.mem_filter, decide_eq_true_eq] at h
  exact h.2

/-- A successful track draw carries a label that some entry of the drawn
collection holds (the label comes from the `a[segment, track]` lookup). -/
theorem RandomTracks.draw_label_mem (a : Annot) (rng : ℕ → ℚ) (k : ℕ)
    (v : TrackItem) (k' : ℕ) (h : RandomTracks.draw a rng k = .ok (v, k')) :
    ∃ e ∈ a, e.2.2 = v.2.2 := by
  unfold RandomTracks.draw at h
  dsimp only at h
  split at h
  · exact absurd h (by simp)
  · split at h
    · exact absurd h (by simp)
    · split at h
      · exact absurd h (by simp)
      · rename_i label hl
        rw [Except.ok.injEq, Prod.mk.injEq] at h
        obtain ⟨hv, -⟩ := h
        simp only [Annot.lookup, Option.map_eq_some'] at hl
        obtain ⟨e, hfind, hlab⟩ := hl
        refine ⟨e, List.mem_of_find?_eq_some hfind, ?_⟩
        rw [hlab, ← hv]

/-- Every triplet emitted by the per-label loop takes its anchor and
positive labels from the positive collection and its negative label from
the negative one. -/
theorem trackTriplets_loop_labels (pos neg : Annot) (rng : ℕ → ℚ) (n k : ℕ) :
    ∀ t ∈ (RandomTrackTriplets.loop pos neg rng n k).1.1,
      (∃ e ∈ pos, e.2.2 = t.1.2.2) ∧ (∃ e ∈ pos, e.2.2 = t.2.1.2.2) ∧
      (∃ e ∈ neg, e.2.2 = t.2.2.2.2) := by
  induction n generalizing k with
  | zero => intro t ht; simp [RandomTrackTriplets.loop] at ht
  | succ n ih =>
    intro t ht
    rw [RandomTrackTriplets.loop] at ht
    cases ha : RandomTracks.draw pos rng k with
    | error e => simp [ha] at ht
    | ok ak =>
      simp only [ha] at ht
      cases hp : RandomTracks.draw pos rng ak.2 with
      | error e => simp [hp] at ht
      | ok pk =>
        simp only [hp] at ht
        cases hn : RandomTracks.draw neg rng pk.2 with
        | error e => simp [hn] at ht
        | ok nk =>
          simp only [hn, List.mem_cons] at ht
          rcases ht with rfl | ht
          · exact ⟨RandomTracks.draw_label_mem pos rng k ak.1 ak.2 ha,
              RandomTracks.draw_label_mem pos rng ak.2 pk.1 pk.2 hp,
              RandomTracks.draw_label_mem neg rng pk.2 nk.1 nk.2 hn⟩
          · exact ih nk.2 t ht

/-- Every triplet emitted by the label loop of `RandomTrackTriplets` has
anchor and positive sharing a label and a negative with a different
label. -/
theorem trackTriplets_go_labels (per_label : ℕ) (a : Annot) (rng : ℕ → ℚ)
    (ls : List Label) (k : ℕ) :
    ∀ t ∈ (RandomTrackTriplets.go per_label a rng ls k).1.1,
      t.1.2.2 = t.2.1.2.2 ∧ t.2.2.2.2 ≠ t.1.2.2 := by
  induction ls generalizing k with
  | nil => intro t ht; simp [RandomTrackTriplets.go] at ht
  | cons l ls ih =>
    intro t ht
    rw [RandomTrackTriplets.go] at ht
    have hblk : ∀ u ∈ (RandomTrackTriplets.loop (Annot.subsetIn a l)
        (Annot.subsetOut a l) rng per_label k).1.1,
        u.1.2.2 = u.2.1.2.2 ∧ u.2.2.2.2 ≠ u.1.2.2 := by
      intro u hu
      obtain ⟨⟨e1, he1, he1l⟩, ⟨e2, he2, he2l⟩, ⟨e3, he3, he3l⟩⟩ :=
        trackTriplets_loop_labels _ _ rng per_label k u hu
      have h1 : u.1.2.2 = l := he1l ▸ mem_subsetIn_label he1
      have h2 : u.2.1.2.2 = l := he2l ▸ mem_subsetIn_label he2
      have h3 : u.2.2.2.2 ≠ l := he3l ▸ mem_subsetOut_label he3
      exact ⟨h1.trans h2.symm, fun hc => h3 (hc.trans h1)⟩
    cases herr : (RandomTrackTriplets.loop (Annot.subsetIn a l)
        (Annot.subsetOut a l) rng per_label k).2 with
    | some e =>
      simp only [herr] at ht
      exact hblk t ht
    | none =>
      simp only [herr, List.mem_append] at ht
      rcases ht with ht | ht
      · exact hblk t ht
      · exact ih _ t ht

/-- Segment-triplet analogue of `trackTriplets_loop_labels`: the labels
attached to anchor/positive/negative come from the positive, positive and
negative restrictions (the `pick` re-crop touches only the segments). -/
theorem segTriplets_loop_labels (d : ℚ) (pos neg : Annot) (rng : ℕ → ℚ) (n k : ℕ) :
    ∀ t ∈ (RandomSegmentTriplets.loop d pos neg rng n k).1.1,
      (∃ e ∈ pos, e.2.2 = t.1.2) ∧ (∃ e ∈ pos, e.2.2 = t.2.1.2) ∧
      (∃ e ∈ neg, e.2.2 = t.2.2.2) := by
  induction n generalizing k with
  | zero => intro t ht; simp [RandomSegmentTriplets.loop] at ht
  | succ n ih =>
    intro t ht
    rw [RandomSegmentTriplets.loop] at ht
    cases ha : RandomTracks.draw pos rng k with
    | error e => simp [ha] at ht
    | ok ak =>
      simp only [ha] at ht
      cases hp : RandomTracks.draw pos rng ak.2 with
      | error e => simp [hp] at ht
      | ok pk =>
        simp only [hp] at ht
        cases hn : RandomTracks.draw neg rng pk.2 with
        | error e => simp [hn] at ht
        | ok nk =>
          simp only [hn] at ht
          by_cases hd : d ≠ 0
          · rw [if_pos hd] at ht
            simp only [List.mem_cons] at ht
            rcases ht with rfl | ht
            · exact ⟨RandomTracks.draw_label_mem pos rng k ak.1 ak.2 ha,
                RandomTracks.draw_label_mem pos rng ak.2 pk.1 pk.2 hp,
                RandomTracks.draw_label_mem neg rng pk.2 nk.1 nk.2 hn⟩
            · exact ih _ t ht
          · rw [if_neg hd] at ht
            simp only [List.mem_cons] at ht
            rcases ht with rfl | ht
            · exact ⟨RandomTracks.draw_label_mem pos rng k ak.1 ak.2 ha,
                RandomTracks.draw_label_mem pos rng ak.2 pk.1 pk.2 hp,
                RandomTracks.draw_label_mem neg rng pk.2 nk.1 nk.2 hn⟩
            · exact ih _ t ht

/-- Label-loop analogue for `RandomSegmentTriplets`. -/
theorem segTriplets_go_labels (d : ℚ) (per_label : ℕ) (fa : Annot)
    (rng : ℕ → ℚ) (ls : List Label) (k : ℕ) :
    ∀ t ∈ (RandomSegmentTriplets.go d per_label fa rng ls k).1.1,
      t.1.2 = t.2.1.2 ∧ t.2.2.2 ≠ t.1.2 := by
  induction ls generalizing k with
  | nil => intro t ht; simp [RandomSegmentTriplets.go] at ht
  | cons l ls ih =>
    intro t ht
    rw [RandomSegmentTriplets.go] at ht
    have hblk : ∀ u ∈ (RandomSegmentTriplets.loop d (Annot.subsetIn fa l)
        (Annot.subsetOut fa l) rng per_label k).1.1,
        u.1.2 = u.2.1.2 ∧ u.2.2.2 ≠ u.1.2 := by
      intro u hu
      obtain ⟨⟨e1, he1, he1l⟩, ⟨e2, he2, he2l⟩, ⟨e3, he3, he3l⟩⟩ :=
        segTriplets_loop_labels d _ _ rng per_label k u hu
      have h1 : u.1.2 = l := he1l ▸ mem_subsetIn_label he1
      have h2 : u.2.1.2 = l := he2l ▸ mem_subsetIn_label he2
      have h3 : u.2.2.2 ≠ l := he3l ▸ mem_subsetOut_label he3
      exact ⟨h1.trans h2.symm, fun hc => h3 (hc.trans h1)⟩
    cases herr : (RandomSegmentTriplets.loop d (Annot.subsetIn fa l)
        (Annot.subsetOut fa l) rng per_label k).2 with
    | some e =>
      simp only [herr] at ht
      exact hblk t ht
    | none =>
      simp only [herr, List.mem_append] at ht
      rcases ht with ht | ht
      · exact hblk t ht
      · exact ih _ t ht

/-- C1 (confirmed): every triplet either builder emits (with labels kept,
i.e. `yield_label=True`) has its anchor and positive resolving to the same
label and its negative resolving to a different one — for every input
collection, every stream, every `per_label` and `duration`. -/
theorem c1_triplet_label_invariant (a : Annot) (rng : ℕ → ℚ)
    (per_label k : ℕ) (d : ℚ) :
    (∀ t ∈ (RandomTrackTriplets.iter_triplets per_label a rng k).1.1,
      t.1.2.2 = t.2.1.2.2 ∧ t.2.2.2.2 ≠ t.1.2.2) ∧
    (∀ t ∈ (RandomSegmentTriplets.iter_triplets d per_label a rng k).1.1,
      t.1.2 = t.2.1.2 ∧ t.2.2.2 ≠ t.1.2) := by
  constructor
  · exact trackTriplets_go_labels per_label a rng _ k
  · intro t ht
    unfold RandomSegmentTriplets.iter_triplets at ht
    by_cases hlen :
        (Annot.labels (RandomSegmentTriplets.filterAnn d a)).length < 2
    · rw [if_pos hlen] at ht
      simp at ht
    · rw [if_neg hlen] at ht
      exact segTriplets_go_labels d per_label _ rng _ k t ht

/-- C1 witness: the first triplet of a concrete two-label run. -/
theorem c1_witness :
    ((((⟨0,1⟩:Segment),0,1), ((⟨0,1⟩:Segment),0,1), ((⟨2,3⟩:Segment),0,2))
        ∈ (RandomTrackTriplets.iter_triplets 1 annC1 rngZero 0).1.1) ∧
    ((((⟨0,1⟩:Segment),0,1), ((⟨0,1⟩:Segment),0,1), ((⟨2,3⟩:Segment),0,2)).1.2.2
        = ((((⟨0,1⟩:Segment),0,1), ((⟨0,1⟩:Segment),0,1),
            ((⟨2,3⟩:Segment),0,2)) : TrackTriplet).2.1.2.2
      ∧ ((((⟨0,1⟩:Segment),0,1), ((⟨0,1⟩:Segment),0,1),
            ((⟨2,3⟩:Segment),0,2)) : TrackTriplet).2.2.2.2
        ≠ ((((⟨0,1⟩:Segment),0,1), ((⟨0,1⟩:Segment),0,1),
            ((⟨2,3⟩:Segment),0,2)) : TrackTriplet).1.2.2) := by
  have hlab : Annot.labels annC1 = [1, 2] := by norm_num [Annot.labels, annC1]
  have hp1 : Annot.subsetIn annC1 1 = [(⟨0,1⟩,0,1)] := by
    norm_num [Annot.subsetIn, annC1]
  have hn1 : Annot.subsetOut annC1 1 = [(⟨2,3⟩,0,2)] := by
    norm_num [Annot.subsetOut, annC1]
  have hp2 : Annot.subsetIn annC1 2 = [(⟨2,3⟩,0,2)] := by
    norm_num [Annot.subsetIn, annC1]
  have hn2 : Annot.subsetOut annC1 2 = [(⟨0,1⟩,0,1)] := by
    norm_num [Annot.subsetOut, annC1]
  have d0 := drawSingle ⟨0,1⟩ 0 1 rngZero 0
  have d2 := drawSingle ⟨0,1⟩ 0 1 rngZero 2
  have d4 := drawSingle ⟨2,3⟩ 0 2 rngZero 4
  have d6 := drawSingle ⟨2,3⟩ 0 2 rngZero 6
  have d8 := drawSingle ⟨2,3⟩ 0 2 rngZero 8
  have d10 := drawSingle ⟨0,1⟩ 0 1 rngZero 10
  have hrun : RandomTrackTriplets.iter_triplets 1 annC1 rngZero 0
      = (([ (((⟨0,1⟩:Segment),0,1), ((⟨0,1⟩:Segment),0,1), ((⟨2,3⟩:Segment),0,2)),
            (((⟨2,3⟩:Segment),0,2), ((⟨2,3⟩:Segment),0,2), ((⟨0,1⟩:Segment),0,1))],
          12), none) := by
    rw [RandomTrackTriplets.iter_triplets, hlab]
    simp only [RandomTrackTriplets.go, RandomTrackTriplets.loop, hp1, hn1, hp2, hn2,
      d0, d2, d4, d6, d8, d10, List.cons_append, List.nil_append, List.append_nil]
  refine ⟨?_, ?_⟩
  · rw [hrun]; simp
  · exact (c1_triplet_label_invariant annC1 rngZero 1 0 0).1 _ (by rw [hrun]; simp)

/-- `getD` at an in-range index is a member. -/
theorem getD_mem_of_lt {α : Type} (l : List α) (i : ℕ) (d : α)
    (h : i < l.length) : l.getD i d ∈ l := by
  induction l generalizing i with
  | nil => simp at h
  | cons x xs ih =>
    cases i with
    | zero => simp [List.getD]
    | succ i =>
      simp only [List.getD_cons_succ]
      exact List.mem_cons_of_mem x (ih i (by simpa using h))

/-- A timeline member comes from an entry. -/
theorem mem_getTimeline_exists {a : Annot} {s : Segment}
    (h : s ∈ Annot.getTimeline a) : ∃ e ∈ a, e.1 = s := by
  rw [Annot.getTimeline, List.mem_dedup] at h
  obtain ⟨e, he, heq⟩ := List.mem_map.mp h
  exact ⟨e, he, heq⟩

/-- A segment with an entry has at least one track. -/
theorem getTracks_ne_nil {a : Annot} {s : Segment} (h : ∃ e ∈ a, e.1 = s) :
    Annot.getTracks a s ≠ [] := by
  obtain ⟨e, he, heq⟩ := h
  intro hc
  unfold Annot.getTracks at hc
  rw [List.map_eq_nil] at hc
  have hmem : e ∈ a.filter (fun e => decide (e.1 = s)) :=
    List.mem_filter.mpr ⟨he, by simp [heq]⟩
  rw [hc] at hmem
  exact List.not_mem_nil e hmem

/-- A track obtained from `get_tracks` has a label: the lookup succeeds. -/
theorem mem_getTracks_lookup {a : Annot} {s : Segment} {t : Track}
    (h : t ∈ Annot.getTracks a s) : ∃ l, Annot.lookup a s t = some l := by
  unfold Annot.getTracks at h
  obtain ⟨e, he, heq⟩ := List.mem_map.mp h
  have hmem := List.mem_filter.mp he
  have hex : ∃ x ∈ a, (decide (x.1 = s) && decide (x.2.1 = t)) = true :=
    ⟨e, hmem.1, by simp [of_decide_eq_true hmem.2, heq]⟩
  have hsome : (a.find? (fun e => decide (e.1 = s) && decide (e.2.1 = t))).isSome :=
    List.find?_isSome.mpr hex
  obtain ⟨y, hy⟩ := Option.isSome_iff_exists.mp hsome
  exact ⟨y.2.2, by rw [Annot.lookup, hy, Option.map_some']⟩

/-- On a collection with a non-empty timeline, a track draw always
succeeds and consumes exactly two stream positions. -/
theorem RandomTracks.draw_ok (a : Annot) (rng : ℕ → ℚ) (k : ℕ)
    (h : Annot.getTimeline a ≠ []) :
    ∃ v : TrackItem, RandomTracks.draw a rng k = .ok (v, k + 2) := by
  have hlen : 0 < (Annot.getTimeline a).length := List.length_pos.mpr h
  have hE : (Annot.getTimeline a).isEmpty = false := by
    cases hE : (Annot.getTimeline a).isEmpty
    · rfl
    · exact absurd (List.isEmpty_iff.mp hE) h
  have hseg : (Annot.getTimeline a).getD
      (qToNat (rng k) (Annot.getTimeline a).length) default ∈ Annot.getTimeline a :=
    getD_mem_of_lt _ _ _ (by unfold qToNat; exact Nat.mod_lt _ hlen)
  have hentry := mem_getTimeline_exists hseg
  have htr := getTracks_ne_nil hentry
  have htlen : 0 < (Annot.getTracks a ((Annot.getTimeline a).getD
      (qToNat (rng k) (Annot.getTimeline a).length) default)).length :=
    List.length_pos.mpr htr
  have htE : (Annot.getTracks a ((Annot.getTimeline a).getD
      (qToNat (rng k) (Annot.getTimeline a).length) default)).isEmpty = false := by
    cases htE' : (Annot.getTracks a _).isEmpty
    · rfl
    · exact absurd (List.isEmpty_iff.mp htE') htr
  have htrk : (Annot.getTracks a ((Annot.getTimeline a).getD
        (qToNat (rng k) (Annot.getTimeline a).length) default)).getD
        (qToNat (rng (k + 1)) (Annot.getTracks a ((Annot.getTimeline a).getD
          (qToNat (rng k) (Annot.getTimeline a).length) default)).length) 0
      ∈ Annot.getTracks a ((Annot.getTimeline a).getD
        (qToNat (rng k) (Annot.getTimeline a).length) default) :=
    getD_mem_of_lt _ _ _ (by unfold qToNat; exact Nat.mod_lt _ htlen)
  obtain ⟨lab, hlab⟩ := mem_getTracks_lookup htrk
  refine ⟨((Annot.getTimeline a).getD (qToNat (rng k) (Annot.getTimeline a).length)
      default,
    (Annot.getTracks a ((Annot.getTimeline a).getD
        (qToNat (rng k) (Annot.getTimeline a).length) default)).getD
      (qToNat (rng (k + 1)) (Annot.getTracks a ((Annot.getTimeline a).getD
        (qToNat (rng k) (Annot.getTimeline a).length) default)).length) 0,
    lab), ?_⟩
  unfold RandomTracks.draw
  dsimp only
  rw [if_neg (by rw [hE]; simp), if_neg (by rw [htE]; simp), hlab]

/-- C2 (amended, confirmed): no anchor is reserved per label.  The `i`-th
triplet emitted by the per-label loop has as anchor a fresh draw from the
positive sub-stream at stream position `k + 6i` (each track draw reads two
positions), as positive the next positive draw, and as negative the next
negative draw — so the anchor is redrawn for every triplet instead of
being fixed by a first reserved draw. -/
theorem c2_fresh_anchor_per_iteration (pos neg : Annot) (rng : ℕ → ℚ)
    (n k i : ℕ) (t : TrackTriplet)
    (hp : Annot.getTimeline pos ≠ []) (hn : Annot.getTimeline neg ≠ [])
    (ht : (RandomTrackTriplets.loop pos neg rng n k).1.1[i]? = some t) :
    RandomTracks.draw pos rng (k + 6*i) = .ok (t.1, k + 6*i + 2) ∧
    RandomTracks.draw pos rng (k + 6*i + 2) = .ok (t.2.1, k + 6*i + 4) ∧
    RandomTracks.draw neg rng (k + 6*i + 4) = .ok (t.2.2, k + 6*i + 6) := by
  induction n generalizing k i with
  | zero => simp [RandomTrackTriplets.loop] at ht
  | succ n ih =>
    obtain ⟨a1, ha1⟩ := RandomTracks.draw_ok pos rng k hp
    obtain ⟨p1, hp1⟩ := RandomTracks.draw_ok pos rng (k+2) hp
    obtain ⟨n1, hn1⟩ := RandomTracks.draw_ok neg rng (k+4) hn
    rw [show k+2+2 = k+4 from by omega] at hp1
    rw [show k+4+2 = k+6 from by omega] at hn1
    rw [RandomTrackTriplets.loop] at ht
    simp only [ha1, hp1, hn1] at ht
    cases i with
    | zero =>
      simp only [List.getElem?_cons_zero, Option.some.injEq] at ht
      subst ht
      simp only [Nat.mul_zero, Nat.add_zero]
      exact ⟨ha1, hp1, hn1⟩
    | succ i =>
      simp only [List.getElem?_cons_succ] at ht
      obtain ⟨c1, c2, c3⟩ := ih (k+6) i ht
      refine ⟨?_, ?_, ?_⟩
      · rw [show k + 6*(i+1) = k + 6 + 6*i from by ring]
        exact c1
      · rw [show k + 6*(i+1) = k + 6 + 6*i from by ring]
        exact c2
      · rw [show k + 6*(i+1) = k + 6 + 6*i from by ring]
        exact c3

/-- C2 amended witness: a concrete one-iteration run of the per-label
loop, with the fresh draws exhibited. -/
theorem c2_amended_witness :
    (Annot.getTimeline [((⟨0,1⟩:Segment),0,5)] ≠ []) ∧
    (Annot.getTimeline [((⟨2,3⟩:Segment),0,7)] ≠ []) ∧
    ((RandomTrackTriplets.loop [((⟨0,1⟩:Segment),0,5)] [((⟨2,3⟩:Segment),0,7)]
        rngZero 1 0).1.1[0]?
      = some ((((⟨0,1⟩:Segment),0,5), ((⟨0,1⟩:Segment),0,5),
          ((⟨2,3⟩:Segment),0,7)) : TrackTriplet)) ∧
    (RandomTracks.draw [((⟨0,1⟩:Segment),0,5)] rngZero (0 + 6*0)
        = .ok (((⟨0,1⟩:Segment),0,5), 0 + 6*0 + 2) ∧
      RandomTracks.draw [((⟨0,1⟩:Segment),0,5)] rngZero (0 + 6*0 + 2)
        = .ok (((⟨0,1⟩:Segment),0,5), 0 + 6*0 + 4) ∧
      RandomTracks.draw [((⟨2,3⟩:Segment),0,7)] rngZero (0 + 6*0 + 4)
        = .ok (((⟨2,3⟩:Segment),0,7), 0 + 6*0 + 6)) := by
  have d0 := drawSingle ⟨0,1⟩ 0 5 rngZero 0
  have d2 := drawSingle ⟨0,1⟩ 0 5 rngZero 2
  have d4 := drawSingle ⟨2,3⟩ 0 7 rngZero 4
  have hmem : (RandomTrackTriplets.loop [((⟨0,1⟩:Segment),0,5)]
      [((⟨2,3⟩:Segment),0,7)] rngZero 1 0).1.1[0]?
      = some ((((⟨0,1⟩:Segment),0,5), ((⟨0,1⟩:Segment),0,5),
          ((⟨2,3⟩:Segment),0,7)) : TrackTriplet) := by
    simp only [RandomTrackTriplets.loop, d0, d2, d4, List.getElem?_cons_zero]
  have hp : Annot.getTimeline [((⟨0,1⟩:Segment),0,5)] ≠ [] := by
    simp [Annot.getTimeline]
  have hn : Annot.getTimeline [((⟨2,3⟩:Segment),0,7)] ≠ [] := by
    simp [Annot.getTimeline]
  exact ⟨hp, hn, hmem,
    c2_fresh_anchor_per_iteration [((⟨0,1⟩:Segment),0,5)] [((⟨2,3⟩:Segment),0,7)]
      rngZero 1 0 0 _ hp hn hmem⟩

/-- C3 (amended, confirmed): the clean-empty-termination guarantee holds
for `RandomSegmentTriplets` (and pair generation through it) whenever the
filtered collection has fewer than two distinct labels, and for
`RandomTrackTriplets` when the collection has no label at all.  (With
exactly one distinct label, `RandomTrackTriplets` raises instead — see the
counterexample.) -/
theorem c3_few_labels_amended (a : Annot) (d : ℚ) (per_label k : ℕ)
    (rng : ℕ → ℚ) :
    ((Annot.labels (RandomSegmentTriplets.filterAnn d a)).length < 2 →
      RandomSegmentTriplets.iter_triplets d per_label a rng k = (([], k), none) ∧
      RandomSegmentPairs.iter_pairs d per_label a rng k = (([], k), none)) ∧
    (Annot.labels a = [] →
      RandomTrackTriplets.iter_triplets per_label a rng k = (([], k), none)) := by
  constructor
  · intro h
    have h1 : RandomSegmentTriplets.iter_triplets d per_label a rng k
        = (([], k), none) := by
      unfold RandomSegmentTriplets.iter_triplets
      rw [if_pos h]
    refine ⟨h1, ?_⟩
    unfold RandomSegmentPairs.iter_pairs
    rw [h1]
    rfl
  · intro h
    unfold RandomTrackTriplets.iter_triplets
    rw [h]
    rfl

/-- C3 amended witness: the empty collection. -/
theorem c3_amended_witness :
    ((Annot.labels (RandomSegmentTriplets.filterAnn 0 [])).length < 2 ∧
      Annot.labels ([] : Annot) = []) ∧
    (RandomSegmentTriplets.iter_triplets 0 40 [] rngZero 0 = (([], 0), none) ∧
      RandomSegmentPairs.iter_pairs 0 40 [] rngZero 0 = (([], 0), none)) ∧
    RandomTrackTriplets.iter_triplets 40 [] rngZero 0 = (([], 0), none) := by
  have h1 : (Annot.labels (RandomSegmentTriplets.filterAnn 0 [])).length < 2 := by
    simp [Annot.labels, RandomSegmentTriplets.filterAnn]
  have h2 : Annot.labels ([] : Annot) = [] := by simp [Annot.labels]
  exact ⟨⟨h1, h2⟩, (c3_few_labels_amended [] 0 40 0 rngZero).1 h1,
    (c3_few_labels_amended [] 0 40 0 rngZero).2 h2⟩

/-- The inverse-CDF pick lands inside the weight vector as long as the
target is within the total mass. -/
theorem pickWeighted_lt_length (ws : List ℚ) (t : ℚ) (h0 : 0 ≤ t)
    (h1 : t < ws.sum) : pickWeighted ws t < ws.length := by
  induction ws generalizing t with
  | nil =>
    simp only [List.sum_nil] at h1
    exact absurd (lt_of_le_of_lt h0 h1) (lt_irrefl 0)
  | cons w ws ih =>
    rw [pickWeighted]
    by_cases hw : t < w
    · simp [hw]
    · rw [if_neg hw]
      simp only [List.length_cons, Nat.add_lt_add_iff_right]
      refine ih (t - w) (by linarith [not_lt.mp hw]) ?_
      simp only [List.sum_cons] at h1
      linarith

/-- With an in-range stream value, `random_segment`'s choice is a valid
index (for the weighted mode this needs a positive total duration). -/
theorem random_segment_choice_lt (segs : List Segment) (w : Bool) (r : ℚ)
    (hr0 : 0 ≤ r) (hr1 : r < 1) (hne : segs ≠ [])
    (hpos : w = true → 0 < (segs.map Segment.duration).sum) :
    random_segment_choice segs w r < segs.length := by
  unfold random_segment_choice
  cases w
  · simp only [Bool.false_eq_true, if_false]
    unfold qToNat
    exact Nat.mod_lt _ (List.length_pos.mpr hne)
  · simp only [if_true]
    have htot := hpos rfl
    have hlt := pickWeighted_lt_length (segs.map Segment.duration)
      (r * (segs.map Segment.duration).sum)
      (mul_nonneg hr0 htot.le)
      (mul_lt_of_lt_one_left htot hr1)
    simpa [List.length_map] using hlt

/-- Sampling-loop specification: with in-range stream values, a
collection of intervals all strictly longer than the (non-negative)
target, the loop emits exactly one sample per pull, each of target
duration (when a target is set) and contained in one of the source
intervals. -/
theorem loopIters_spec (d : ℚ) (w : Bool) (segs : List Segment)
    (rng : ℕ → ℚ) (hr : ∀ j, 0 ≤ rng j ∧ rng j < 1) (hd : 0 ≤ d)
    (hne : segs ≠ []) (hall : ∀ s ∈ segs, d < Segment.duration s) :
    ∀ n k,
    (RandomSegments.loopIters d w segs rng n k).1.length = n ∧
    ∀ x ∈ (RandomSegments.loopIters d w segs rng n k).1,
      ∃ s ∈ segs, s.start ≤ x.start ∧ x.stop ≤ s.stop ∧
        (d ≠ 0 → Segment.duration x = d) := by
  have hpos : w = true → 0 < (segs.map Segment.duration).sum := by
    intro _
    apply List.sum_pos
    · intro q hq
      obtain ⟨s, hs, rfl⟩ := List.mem_map.mp hq
      exact lt_of_le_of_lt hd (hall s hs)
    · simpa using hne
  intro n
  induction n with
  | zero => intro k; simp [RandomSegments.loopIters]
  | succ n ih =>
    intro k
    have hchoice := random_segment_choice_lt segs w (rng k) (hr k).1 (hr k).2 hne hpos
    have hmem : segs.getD (random_segment_choice segs w (rng k)) default ∈ segs :=
      getD_mem_of_lt _ _ _ hchoice
    have hdur := hall _ hmem
    rw [RandomSegments.loopIters]
    unfold RandomSegments.drawOne
    by_cases hdz : d ≠ 0
    · rw [if_pos hdz, if_neg (not_lt.mpr hdur.le)]
      constructor
      · simp [(ih (k+2)).1]
      · intro x hx
        simp only [List.cons_append, List.nil_append, List.mem_cons] at hx
        rcases hx with rfl | hx
        · refine ⟨segs.getD (random_segment_choice segs w (rng k)) default, hmem,
            ?_, ?_, fun _ => ?_⟩
          · exact le_add_of_nonneg_right (mul_nonneg (hr (k+1)).1 (by linarith))
          · have hmul : rng (k+1) * (Segment.duration
                (segs.getD (random_segment_choice segs w (rng k)) default) - d)
                ≤ Segment.duration
                  (segs.getD (random_segment_choice segs w (rng k)) default) - d :=
              mul_le_of_le_one_left (by linarith) (hr (k+1)).2.le
            simp only [random_subsegment_draw, Segment.duration] at hmul ⊢
            have hdd := hdur
            simp only [Segment.duration] at hdd
            linarith
          · simp only [random_subsegment_draw, Segment.duration]
            ring
        · exact (ih (k+2)).2 x hx
    · rw [if_neg hdz]
      push_neg at hdz
      constructor
      · simp [(ih (k+1)).1]
      · intro x hx
        simp only [List.cons_append, List.nil_append, List.mem_cons] at hx
        rcases hx with rfl | hx
        · exact ⟨_, hmem, le_refl _, le_refl _, fun hc => absurd hdz hc⟩
        · exact (ih (k+1)).2 x hx

/-- Unfolding `RandomSegments.iter_segments` on a timeline source: the
strict filter runs, then either the setup error or `n` sampling
iterations. -/
theorem iter_segments_timeline_eq (d : ℚ) (w : Bool) (t : Timeline)
    (rng : ℕ → ℚ) (k n : ℕ) (hn : ¬ n = 0) :
    RandomSegments.iter_segments d w (.timeline t) rng k n
      = (if (t.filter (fun s => decide (d < Segment.duration s))).isEmpty
          then .error .valueError
          else .ok (RandomSegments.loopIters d w
            (t.filter (fun s => decide (d < Segment.duration s))) rng n k)) := by
  unfold RandomSegments.iter_segments
  rw [if_neg hn]
  rfl

/-- C6 (amended, confirmed): the no-eligible-source `ValueError` is
raised at the first pull if and only if no interval of the collection is
strictly longer than the target duration (the filter is strict, so an
interval of duration exactly the target does not count); when some
interval qualifies, every later pull succeeds — the error is a one-time
setup check, never re-raised per draw. -/
theorem c6_strict_filter_eligibility (t : Timeline) (d : ℚ) (w : Bool)
    (rng : ℕ → ℚ) (k n : ℕ) (hn : 0 < n) (hd : 0 ≤ d)
    (hr : ∀ j, 0 ≤ rng j ∧ rng j < 1) :
    (RandomSegments.iter_segments d w (.timeline t) rng k n = .error .valueError
      ↔ ∀ s ∈ t, Segment.duration s ≤ d) ∧
    ((∃ s ∈ t, d < Segment.duration s) →
      ∃ l kk, RandomSegments.iter_segments d w (.timeline t) rng k n
          = .ok (l, kk) ∧ l.length = n) := by
  rw [iter_segments_timeline_eq d w t rng k n (by omega)]
  constructor
  · by_cases he : (t.filter (fun s => decide (d < Segment.duration s))).isEmpty = true
    · rw [if_pos he]
      refine iff_of_true rfl ?_
      intro s hs
      have hfe := List.isEmpty_iff.mp he
      have hall := List.filter_eq_nil.mp hfe
      have := hall s hs
      simp only [decide_eq_true_eq] at this
      linarith [not_lt.mp this]
    · rw [if_neg he]
      refine iff_of_false (by simp) ?_
      intro hall
      have hne : t.filter (fun s => decide (d < Segment.duration s)) ≠ [] := by
        intro hc
        exact he (by rw [hc]; rfl)
      obtain ⟨s, hs⟩ := List.exists_mem_of_ne_nil _ hne
      have hsf := List.mem_filter.mp hs
      have hsd : d < Segment.duration s := by
        have := hsf.2
        simpa using this
      exact absurd (hall s hsf.1) (not_le.mpr hsd)
  · rintro ⟨s, hs, hsd⟩
    have hsf : s ∈ t.filter (fun s => decide (d < Segment.duration s)) :=
      List.mem_filter.mpr ⟨hs, by simpa using hsd⟩
    have hne : t.filter (fun s => decide (d < Segment.duration s)) ≠ [] := by
      intro hc
      rw [hc] at hsf
      exact List.not_mem_nil s hsf
    have he : ¬ (t.filter (fun s => decide (d < Segment.duration s))).isEmpty = true := by
      intro hc
      exact hne (List.isEmpty_iff.mp hc)
    rw [if_neg he]
    have hall : ∀ x ∈ t.filter (fun s => decide (d < Segment.duration s)),
        d < Segment.duration x := by
      intro x hx
      have := (List.mem_filter.mp hx).2
      simpa using this
    refine ⟨(RandomSegments.loopIters d w _ rng n k).1,
      (RandomSegments.loopIters d w _ rng n k).2, rfl,
      (loopIters_spec d w _ rng hr hd hne hall n k).1⟩

/-- C6 amended witness: a single interval of duration 2 with target 1. -/
theorem c6_amended_witness :
    ((0:ℕ) < 1 ∧ (0:ℚ) ≤ 1 ∧ (∀ j, 0 ≤ rngZero j ∧ rngZero j < 1)) ∧
    ((RandomSegments.iter_segments 1 false (.timeline [⟨0, 2⟩]) rngZero 0 1
        = .error .valueError ↔ ∀ s ∈ [(⟨0, 2⟩ : Segment)], Segment.duration s ≤ 1) ∧
    ((∃ s ∈ [(⟨0, 2⟩ : Segment)], (1:ℚ) < Segment.duration s) →
      ∃ l kk, RandomSegments.iter_segments 1 false (.timeline [⟨0, 2⟩]) rngZero 0 1
          = .ok (l, kk) ∧ l.length = 1)) := by
  have hr : ∀ j, 0 ≤ rngZero j ∧ rngZero j < 1 := by
    intro j
    constructor <;> norm_num [rngZero]
  exact ⟨⟨by norm_num, by norm_num, hr⟩,
    c6_strict_filter_eligibility [⟨0, 2⟩] 1 false rngZero 0 1 (by norm_num)
      (by norm_num) hr⟩

/-- Per-label block of `RandomSegmentsPerLabel` (target duration set):
never raises; an empty filtered timeline contributes nothing, a non-empty
one exactly `per_label` samples, each carrying the label, of the target
duration, inside one of the label's own filtered intervals. -/
theorem labelBlock_spec (per_label : ℕ) (d : ℚ) (a : Annot) (l : Label)
    (rng : ℕ → ℚ) (k : ℕ) (hd : 0 < d) (hr : ∀ j, 0 ≤ rng j ∧ rng j < 1) :
    ∃ blk kk,
      RandomSegmentsPerLabel.labelBlock per_label d a l rng k = .ok (blk, kk) ∧
      (remove_short_segment (Annot.label_timeline a l) d = [] → blk = []) ∧
      (remove_short_segment (Annot.label_timeline a l) d ≠ []
        → blk.length = per_label) ∧
      ∀ x ∈ blk, x.2 = l ∧ Segment.duration x.1 = d ∧
        ∃ s ∈ remove_short_segment (Annot.label_timeline a l) d,
          s.start ≤ x.1.start ∧ x.1.stop ≤ s.stop := by
  unfold RandomSegmentsPerLabel.labelBlock
  rw [if_pos hd]
  by_cases he : (remove_short_segment (Annot.label_timeline a l) d).isEmpty = true
  · rw [if_pos he]
    exact ⟨[], k, rfl, fun _ => rfl,
      fun hne => absurd (List.isEmpty_iff.mp he) hne, by simp⟩
  · rw [if_neg he]
    have hne : remove_short_segment (Annot.label_timeline a l) d ≠ [] :=
      fun hc => he (by rw [hc]; rfl)
    have hall : ∀ s ∈ remove_short_segment (Annot.label_timeline a l) d,
        d < Segment.duration s := by
      intro s hs
      unfold remove_short_segment at hs
      have := (List.mem_filter.mp hs).2
      simpa using this
    have hfil : (remove_short_segment (Annot.label_timeline a l) d).filter
        (fun s => decide (d < Segment.duration s))
        = remove_short_segment (Annot.label_timeline a l) d := by
      apply List.filter_eq_self.mpr
      intro x hx
      simpa using hall x hx
    have hstep := iter_segments_timeline_eq d true
      (remove_short_segment (Annot.label_timeline a l) d) rng k (per_label + 1)
      (by omega)
    rw [hfil, if_neg he] at hstep
    rw [hstep]
    have hspec := loopIters_spec d true
      (remove_short_segment (Annot.label_timeline a l) d) rng hr hd.le hne hall
      (per_label + 1) k
    refine ⟨_, _, rfl, fun hc => absurd hc hne, fun _ => ?_, ?_⟩
    · simp only [List.length_map, List.length_take, hspec.1]
      omega
    · intro x hx
      obtain ⟨s', hs', rfl⟩ := List.mem_map.mp hx
      obtain ⟨s, hsmem, hcont⟩ := hspec.2 s' (List.mem_of_mem_take hs')
      exact ⟨rfl, hcont.2.2 hd.ne', s, hsmem, hcont.1, hcont.2.1⟩

/-- Label loop of `RandomSegmentsPerLabel`: no error, blocks in label
order, with the per-label guarantees of `labelBlock_spec`. -/
theorem perLabel_go_spec (per_label : ℕ) (d : ℚ) (a : Annot) (rng : ℕ → ℚ)
    (hd : 0 < d) (hr : ∀ j, 0 ≤ rng j ∧ rng j < 1) :
    ∀ (ls : List Label) (k : ℕ), ∃ blocks : List (List (Segment × Label)),
      (RandomSegmentsPerLabel.go per_label d a rng ls k).2 = none ∧
      (RandomSegmentsPerLabel.go per_label d a rng ls k).1.1 = blocks.flatten ∧
      blocks.length = ls.length ∧
      ∀ i, i < ls.length →
        ((remove_short_segment (Annot.label_timeline a (ls.getD i 0)) d = []
            → blocks.getD i [] = []) ∧
         (remove_short_segment (Annot.label_timeline a (ls.getD i 0)) d ≠ []
            → (blocks.getD i []).length = per_label) ∧
         ∀ x ∈ blocks.getD i [], x.2 = ls.getD i 0 ∧ Segment.duration x.1 = d ∧
           ∃ s ∈ remove_short_segment (Annot.label_timeline a (ls.getD i 0)) d,
             s.start ≤ x.1.start ∧ x.1.stop ≤ s.stop) := by
  intro ls
  induction ls with
  | nil =>
    intro k
    exact ⟨[], rfl, rfl, rfl, by intro i hi; simp at hi⟩
  | cons l ls ih =>
    intro k
    obtain ⟨blk, kk, hb, hempty, hlen, hmem⟩ :=
      labelBlock_spec per_label d a l rng k hd hr
    obtain ⟨blocks, hr1, hr2, hr3, hr4⟩ := ih kk
    refine ⟨blk :: blocks, ?_, ?_, ?_, ?_⟩
    · rw [RandomSegmentsPerLabel.go]
      simp only [hb]
      exact hr1
    · rw [RandomSegmentsPerLabel.go]
      simp only [hb, List.flatten_cons]
      rw [hr2]
    · simp [hr3]
    · intro i hi
      cases i with
      | zero =>
        simp only [List.getD_cons_zero]
        exact ⟨hempty, hlen, hmem⟩
      | succ i =>
        simp only [List.getD_cons_succ]
        exact hr4 i (by simpa using hi)

/-- C10 (confirmed): with a positive target duration and in-range stream
values, the label-balanced sampler raises nothing and yields the per-label
blocks concatenated in `labels()` order (a list of distinct labels):
an empty strictly-filtered label timeline is skipped silently, any other
label contributes exactly `per_label` consecutive samples carrying that
label, each of the target duration and inside one of that label's own
filtered intervals. -/
theorem c10_label_balanced_sampler (a : Annot) (per_label k : ℕ) (d : ℚ)
    (rng : ℕ → ℚ) (hd : 0 < d) (hr : ∀ j, 0 ≤ rng j ∧ rng j < 1) :
    (Annot.labels a).Nodup ∧
    (RandomSegmentsPerLabel.iter_segments per_label d a rng k).2 = none ∧
    ∃ blocks : List (List (Segment × Label)),
      (RandomSegmentsPerLabel.iter_segments per_label d a rng k).1.1
        = blocks.flatten ∧
      blocks.length = (Annot.labels a).length ∧
      ∀ i, i < (Annot.labels a).length →
        ((remove_short_segment
            (Annot.label_timeline a ((Annot.labels a).getD i 0)) d = []
            → blocks.getD i [] = []) ∧
         (remove_short_segment
            (Annot.label_timeline a ((Annot.labels a).getD i 0)) d ≠ []
            → (blocks.getD i []).length = per_label) ∧
         ∀ x ∈ blocks.getD i [], x.2 = (Annot.labels a).getD i 0 ∧
           Segment.duration x.1 = d ∧
           ∃ s ∈ remove_short_segment
              (Annot.label_timeline a ((Annot.labels a).getD i 0)) d,
             s.start ≤ x.1.start ∧ x.1.stop ≤ s.stop) := by
  obtain ⟨blocks, h1, h2, h3, h4⟩ :=
    perLabel_go_spec per_label d a rng hd hr (Annot.labels a) k
  exact ⟨List.nodup_dedup _, h1, blocks, h2, h3, h4⟩

/-- C10 witness: one label over one interval, `per_label = 1`,
target duration `1`. -/
theorem c10_witness :
    ((0:ℚ) < 1 ∧ (∀ j, 0 ≤ rngZero j ∧ rngZero j < 1)) ∧
    ((Annot.labels annC10).Nodup ∧
    (RandomSegmentsPerLabel.iter_segments 1 1 annC10 rngZero 0).2 = none ∧
    ∃ blocks : List (List (Segment × Label)),
      (RandomSegmentsPerLabel.iter_segments 1 1 annC10 rngZero 0).1.1
        = blocks.flatten ∧
      blocks.length = (Annot.labels annC10).length ∧
      ∀ i, i < (Annot.labels annC10).length →
        ((remove_short_segment
            (Annot.label_timeline annC10 ((Annot.labels annC10).getD i 0)) 1 = []
            → blocks.getD i [] = []) ∧
         (remove_short_segment
            (Annot.label_timeline annC10 ((Annot.labels annC10).getD i 0)) 1 ≠ []
            → (blocks.getD i []).length = 1) ∧
         ∀ x ∈ blocks.getD i [], x.2 = (Annot.labels annC10).getD i 0 ∧
           Segment.duration x.1 = 1 ∧
           ∃ s ∈ remove_short_segment
              (Annot.label_timeline annC10 ((Annot.labels annC10).getD i 0)) 1,
             s.start ≤ x.1.start ∧ x.1.stop ≤ s.stop)) := by
  have hr : ∀ j, 0 ≤ rngZero j ∧ rngZero j < 1 := by
    intro j
    constructor <;> norm_num [rngZero]
  exact ⟨⟨by norm_num, hr⟩,
    c10_label_balanced_sampler annC10 1 0 1 rngZero (by norm_num) hr⟩
